import Mathlib

/-!
Verification development for the mpy-repl-tool remote-filesystem core
(`there/repl_connection.py`, `there/sync.py`, `there/walk.py`,
`there/string_escape.py`).

Byte strings are modelled as `List Nat` (each element a byte value < 256),
text as `List Char` or `String`, and paths on the board as `List String`
(the components of an absolute POSIX path).  Remote failures surface as an
explicit `RemoteError` value; Python functions that raise are modelled with
`Except RemoteError`.
-/

set_option autoImplicit false
set_option linter.unusedVariables false

namespace There

/-! ### Typed error taxonomy

`MicroPythonReplProtocol._parse_error` turns a remote traceback into a typed
exception: `FileNotFoundError` (errno 2), `PermissionError` (13),
`FileExistsError` (17), `OSError(19, 'No Such Device Error')`, a generic
`OSError(errnum, ...)`, or one of `ValueError`/`KeyError`/`ImportError`.
In Python the first four are subclasses of `OSError`; `isOSError` mirrors
that subclass relationship for `except OSError:` clauses. -/

inductive RemoteError where
  | fileNotFound
  | permissionDenied
  | fileExists
  | noSuchDevice
  | osError (errnum : Nat)
  | valueError (msg : List Char)
  | keyError (msg : List Char)
  | importError (msg : List Char)
  deriving DecidableEq, Repr

def RemoteError.isOSError : RemoteError → Bool
  | .fileNotFound => true
  | .permissionDenied => true
  | .fileExists => true
  | .noSuchDevice => true
  | .osError _ => true
  | _ => false

def RemoteError.isImportError : RemoteError → Bool
  | .importError _ => true
  | _ => false

def RemoteError.isFileNotFound : RemoteError → Bool
  | .fileNotFound => true
  | _ => false

/-! ### RTC conversions (`MicroPythonRepl.read_rtc` / `set_rtc`)

The board's RTC subsecond field counts down from 255 in 1/256-second units.
`set_rtc` sends `255 - (255 * microsecond) // 999999`; `read_rtc` converts a
subsecond value back with `(999999 * (255 - subsecond)) // 256`.  Both use
Python floor division on nonnegative ints, i.e. `Nat` division. -/

def set_rtc_subsecond (microsecond : Nat) : Nat :=
  255 - (255 * microsecond) / 999999

def read_rtc_microsecond (subsecond : Nat) : Nat :=
  (999999 * (255 - subsecond)) / 256

def rtc_roundtrip (microsecond : Nat) : Nat :=
  read_rtc_microsecond (set_rtc_subsecond microsecond)

/-! ### Response-packet splitting (`MicroPythonReplProtocol.exec_raw`)

After the reader thread frames a packet (everything before the `0x04 0x3E`
terminator), `exec_raw` runs `out, err = data.split(b'\x04')`.  `bytes.split`
splits at every `0x04`; the two-name unpacking raises `ValueError` unless the
split has exactly two parts, and `exec_raw` converts that into the
`IOError('CTRL-D missing in response: ...')` desync error.  It then requires
`b'OK' in out` and strips the first two bytes of `out`. -/

/-- Python `data.split(sep)` for a single-byte separator: split at every
occurrence, keeping empty parts. -/
def pySplit (sep : Nat) : List Nat → List (List Nat)
  | [] => [[]]
  | b :: rest =>
    match pySplit sep rest with
    | [] => []
    | part :: parts =>
      if b = sep then [] :: part :: parts else (b :: part) :: parts

inductive ExecRawError where
  | ctrlDMissing (data : List Nat)
  | notAccepted (out err : List Nat)
  deriving DecidableEq, Repr

/-- Python `needle in haystack` on bytes: contiguous-subsequence test. -/
def bytesContains (needle : List Nat) : List Nat → Bool
  | [] => needle.isPrefixOf []
  | b :: rest => needle.isPrefixOf (b :: rest) || bytesContains needle rest

/-- The packet-parsing step of `exec_raw`: split at `0x04`, require exactly
two parts, require `b'OK'` to occur in `out`, strip the leading two bytes. -/
def exec_raw_parse (data : List Nat) : Except ExecRawError (List Nat × List Nat) :=
  match pySplit 4 data with
  | [out, err] =>
    if bytesContains [79, 75] out then .ok (out.drop 2, err)
    else .error (.notAccepted out err)
  | _ => .error (.ctrlDMissing data)

/-! ### Error classifier (`MicroPythonReplProtocol._parse_error`)

`_parse_error(text)` splits the stderr text into lines; if the first line
starts with `Traceback`, the last line is matched against
`re_oserror = OSError: (\[Errno )?(\d+)(\] )?` and, failing an `OSError`
raise, against `re_exceptions = (ValueError|KeyError|ImportError): (.*)`.
We model text as `List Char`. -/

/-- The line-boundary characters of Python `str.splitlines`: LF, CR, VT, FF,
FS, GS, RS, NEL, LINE SEPARATOR and PARAGRAPH SEPARATOR. -/
def isLineBreak (c : Char) : Bool :=
  c = '\n' || c = '\r' || c = '\x0b' || c = '\x0c' || c = '\x1c' ||
    c = '\x1d' || c = '\x1e' || c = '\x85' || c = '\u2028' || c = '\u2029'

/-- Python `str.splitlines`: split at every line-boundary character, with
`'\r''\n'` counting as a single boundary, and no trailing empty line when
the text ends in a boundary. -/
def splitlinesCh : List Char → List (List Char)
  | [] => []
  | [c] => if isLineBreak c then [[]] else [[c]]
  | c :: c2 :: rest =>
    if c = '\r' && c2 = '\n' then [] :: splitlinesCh rest
    else if isLineBreak c then [] :: splitlinesCh (c2 :: rest)
    else
      match splitlinesCh (c2 :: rest) with
      | [] => [[c]]
      | l :: ls => (c :: l) :: ls

/-- `p.isPrefixOf s` driven drop: `some` of the remainder when `p` is a
prefix of `s`. -/
def dropPrefixCh (p s : List Char) : Option (List Char) :=
  if p.isPrefixOf s then some (s.drop p.length) else none

/-- Value of a decimal digit run (`int` on the digits matched by `\d+`). -/
def digitsToNat (ds : List Char) : Nat :=
  ds.foldl (fun a c => 10 * a + (c.toNat - 48)) 0

/-- `re_oserror.match(line)`: anchored at the start, `OSError: ` then an
optional `[Errno ` then one or more decimal digits (the following `] ` group
is irrelevant).  Returns the errno.  The optional group is only kept when a
digit follows it (regex backtracking). -/
def matchOSError (line : List Char) : Option Nat :=
  match dropPrefixCh ("OSError: ".toList) line with
  | none => none
  | some rest =>
    let rest2 :=
      match dropPrefixCh ("[Errno ".toList) rest with
      | some r => if (r.head?.elim false Char.isDigit) then r else rest
      | none => rest
    let ds := rest2.takeWhile Char.isDigit
    if ds = [] then none else some (digitsToNat ds)

/-- `re_exceptions.match(line)`: `(ValueError|KeyError|ImportError): (.*)`
anchored at the start; the raised exception carries the rest of the line. -/
def matchExceptions (line : List Char) : Option RemoteError :=
  match dropPrefixCh ("ValueError: ".toList) line with
  | some msg => some (.valueError msg)
  | none =>
    match dropPrefixCh ("KeyError: ".toList) line with
    | some msg => some (.keyError msg)
    | none =>
      match dropPrefixCh ("ImportError: ".toList) line with
      | some msg => some (.importError msg)
      | none => none

/-- `_parse_error`: `some e` when the classifier raises the typed error `e`,
`none` when it raises nothing (in which case `exec` raises a generic
`IOError`).  Note the `elif err_num:` guard: errno 0 raises nothing and falls
through to the `re_exceptions` match. -/
def parse_error (text : List Char) : Option RemoteError :=
  let lines := splitlinesCh text
  match lines.head?, lines.getLast? with
  | some first, some last =>
    if ("Traceback".toList).isPrefixOf first then
      match matchOSError last with
      | some n =>
        if n = 2 then some .fileNotFound
        else if n = 13 then some .permissionDenied
        else if n = 17 then some .fileExists
        else if n = 19 then some .noSuchDevice
        else if n ≠ 0 then some (.osError n)
        else matchExceptions last
      | none => matchExceptions last
    else none
  | _, _ => none

/-! ### `MpyPath.sha256` recovery structure

The remote hashing program is run first; the classifier may turn its failure
into a typed error.  `except ImportError:` falls back to streaming the file
to the host and hashing locally, where a `FileNotFoundError` yields `b''`;
`except OSError:` (which, by the Python class hierarchy, also catches
`FileNotFoundError` & co. — the `ImportError` clause is checked first)
yields `b''`.  Any other error propagates.  The two oracles are the outcome
of the remote hashing attempt and the outcome of the host-side fallback. -/

def sha256_result (remoteHash : Except RemoteError (List Nat))
    (fallbackHash : Except RemoteError (List Nat)) : Except RemoteError (List Nat) :=
  match remoteHash with
  | .ok digest => .ok digest
  | .error e =>
    if e.isImportError then
      match fallbackHash with
      | .ok digest => .ok digest
      | .error e2 => if e2.isFileNotFound then .ok [] else .error e2
    else if e.isOSError then .ok []
    else .error e

/-! ### The `_stat_cache` slot (`MpyPath`)

Each path object carries one nullable cached stat.  The model below mirrors
the statement order of each method body: `unlink`, `rename` and
`write_bytes` assign `self._stat_cache = None` *before* the remote call,
`rmdir` assigns it *after*, and `mkdir` never mentions the slot.  The remote
call outcome is an oracle (`Except RemoteError Unit`); each operation
returns its result together with the cache slot afterwards. -/

structure StatRec where
  st_mode : Nat
  st_size : Nat
  deriving DecidableEq, Repr

def unlink_cache (cache : Option StatRec) (remote : Except RemoteError Unit) :
    Except RemoteError Unit × Option StatRec :=
  (remote, none)

def rename_cache (cache : Option StatRec) (remote : Except RemoteError Unit) :
    Except RemoteError Unit × Option StatRec :=
  (remote, none)

def write_bytes_cache (cache : Option StatRec) (remote : Except RemoteError Unit) :
    Except RemoteError Unit × Option StatRec :=
  (remote, none)

def rmdir_cache (cache : Option StatRec) (remote : Except RemoteError Unit) :
    Except RemoteError Unit × Option StatRec :=
  match remote with
  | .ok _ => (.ok (), none)
  | .error e => (.error e, cache)

def mkdir_cache (cache : Option StatRec) (exist_ok : Bool)
    (remote : Except RemoteError Unit) : Except RemoteError Unit × Option StatRec :=
  (match remote with
   | .ok _ => .ok ()
   | .error .fileExists => if exist_ok then .ok () else .error .fileExists
   | .error e => .error e,
   cache)

/-- `MpyPath.stat`: return the cache when present, otherwise issue the
remote `os.stat` call and store its result. -/
def stat_cached (cache : Option StatRec) (remote : Except RemoteError StatRec) :
    Except RemoteError StatRec × Option StatRec :=
  match cache with
  | some st => (.ok st, some st)
  | none =>
    match remote with
    | .ok st => (.ok st, some st)
    | .error e => (.error e, none)

/-! ### The board-side filesystem

The board's `os` module is external to the repository; its filesystem is
modelled as a flat association list from absolute paths to nodes, with the
root `[]` implicitly an always-existing directory, and the usual POSIX
semantics for `os.mkdir` and `open(..., 'wb')` (EEXIST for an existing
target, ENOENT for a missing parent, ENOTDIR/EISDIR for files and
directories in the wrong place). -/

inductive Node where
  | file (data : List Nat)
  | dirnode
  deriving DecidableEq, Repr

def DstFS := List (List String × Node)

instance : DecidableEq DstFS := by unfold DstFS; infer_instance

def assocFind : DstFS → List String → Option Node
  | [], _ => none
  | (q, v) :: rest, p => if p = q then some v else assocFind rest p

/-- Look a path up; the root is always a directory. -/
def nodeAt (d : DstFS) (p : List String) : Option Node :=
  if p = [] then some .dirnode else assocFind d p

/-- `os.mkdir(p)` on the board. -/
def mkdirAt (d : DstFS) (p : List String) : Except RemoteError DstFS :=
  match nodeAt d p with
  | some _ => .error .fileExists
  | none =>
    match nodeAt d p.dropLast with
    | some .dirnode => .ok ((p, .dirnode) :: d)
    | some (.file _) => .error (.osError 20)
    | none => .error .fileNotFound

/-- `open(p, 'wb')` followed by writing `data` (the effect of
`MpyPath.write_bytes` on the board's filesystem). -/
def writeAt (d : DstFS) (p : List String) (data : List Nat) : Except RemoteError DstFS :=
  match nodeAt d p with
  | some .dirnode => .error (.osError 21)
  | some (.file _) => .ok ((p, .file data) :: d)
  | none =>
    match nodeAt d p.dropLast with
    | some .dirnode => .ok ((p, .file data) :: d)
    | some (.file _) => .error (.osError 20)
    | none => .error .fileNotFound

/-- `os.stat(p).st_size` (directories stat with size 0 on the board). -/
def statSizeAt (d : DstFS) (p : List String) : Except RemoteError Nat :=
  match nodeAt d p with
  | none => .error .fileNotFound
  | some (.file data) => .ok data.length
  | some .dirnode => .ok 0

/-! ### `MpyPath.mkdir`

The method body runs a single remote `os.mkdir(self)` and swallows
`FileExistsError` when `exist_ok`; the `parents` parameter is never read.
The second component records the remote `os.mkdir` calls that were issued
(always exactly one). -/

def mkdirPathLogged (d : DstFS) (p : List String) (parents exist_ok : Bool) :
    Except RemoteError DstFS × List (List String) :=
  (match mkdirAt d p with
   | .ok d' => .ok d'
   | .error .fileExists => if exist_ok then .ok d else .error .fileExists
   | .error e => .error e,
   [p])

def mkdirPath (d : DstFS) (p : List String) (parents exist_ok : Bool) :
    Except RemoteError DstFS :=
  (mkdirPathLogged d p parents exist_ok).1

/-! ### Base64 (`binascii.b2a_base64` / `a2b_base64`, `ubinascii` on the board)

`write_bytes` sends each 512-byte chunk as `a2b(b2a_base64(block).rstrip())`;
`read_as_stream` receives `b2a_base64` lines and decodes them with
`a2b_base64` on the host.  Bytes are `Nat`s below 256; the encoder emits the
ASCII codes of the base64 alphabet, `=` (61) padding, and a trailing
newline (10).  The decoder is the lenient binascii one: characters outside
the alphabet (including `\n` and the `=` padding) carry no data bits and are
skipped; each group of 4 data characters yields 3 bytes, a trailing group of
3 yields 2 and a trailing group of 2 yields 1. -/

def b64alphabet : List Nat :=
  [65, 66, 67, 68, 69, 70, 71, 72, 73, 74, 75, 76, 77, 78, 79, 80, 81, 82,
   83, 84, 85, 86, 87, 88, 89, 90,
   97, 98, 99, 100, 101, 102, 103, 104, 105, 106, 107, 108, 109, 110, 111,
   112, 113, 114, 115, 116, 117, 118, 119, 120, 121, 122,
   48, 49, 50, 51, 52, 53, 54, 55, 56, 57, 43, 47]

def sextetChar (v : Nat) : Nat := b64alphabet.getD v 0

def charSextet? (c : Nat) : Option Nat := b64alphabet.findIdx? (· = c)

/-- Encoder core: 3 bytes become 4 alphabet characters; a trailing pair or
single byte is padded with `=`. -/
def b2aChars : List Nat → List Nat
  | a :: b :: c :: rest =>
    sextetChar (a / 4) :: sextetChar ((a % 4) * 16 + b / 16) ::
      sextetChar ((b % 16) * 4 + c / 64) :: sextetChar (c % 64) :: b2aChars rest
  | [a, b] =>
    [sextetChar (a / 4), sextetChar ((a % 4) * 16 + b / 16),
     sextetChar ((b % 16) * 4), 61]
  | [a] => [sextetChar (a / 4), sextetChar ((a % 4) * 16), 61, 61]
  | [] => []

/-- `binascii.b2a_base64`: base64 line with a trailing newline. -/
def b2a_base64 (data : List Nat) : List Nat := b2aChars data ++ [10]

/-- Decoder core on the data sextets. -/
def decodeSextets : List Nat → List Nat
  | a :: b :: c :: d :: rest =>
    (4 * a + b / 16) :: (16 * (b % 16) + c / 4) :: (64 * (c % 4) + d) ::
      decodeSextets rest
  | [a, b, c] => [4 * a + b / 16, 16 * (b % 16) + c / 4]
  | [a, b] => [4 * a + b / 16]
  | _ => []

/-- `binascii.a2b_base64`: keep only alphabet characters (each contributing
its sextet), then decode groups. -/
def a2b_base64 (s : List Nat) : List Nat :=
  decodeSextets (s.filterMap charSextet?)

/-- Python `bytes.rstrip()`: strip trailing ASCII whitespace. -/
def isPyWhitespace (c : Nat) : Bool :=
  c = 32 || c = 9 || c = 10 || c = 13 || c = 11 || c = 12

def rstripWs (s : List Nat) : List Nat :=
  (s.reverse.dropWhile isPyWhitespace).reverse

/-! ### Chunked file write and streamed read

`write_bytes` iterates the data in 512-byte chunks; each chunk crosses the
wire base64-encoded (`.rstrip()`-ed) and is decoded by `ubinascii` on the
board, so the resulting file content is the concatenation of the decoded
chunks.  `read_as_stream` has the board read the file in 512-byte
`readinto` chunks, base64-encode each, and the host decodes them;
`read_bytes` joins the streamed blocks. -/

def chunk512 (data : List Nat) : List (List Nat) :=
  if data = [] then [] else data.take 512 :: chunk512 (data.drop 512)
  termination_by data.length
  decreasing_by
    simp only [List.length_drop]
    cases data with
    | nil => simp_all
    | cons a l => simp; omega

/-- The board-side file content produced by `write_bytes(data)`. -/
def write_bytes_content (data : List Nat) : List Nat :=
  ((chunk512 data).map (fun block => a2b_base64 (rstripWs (b2a_base64 block)))).flatten

/-- The blocks yielded by `read_as_stream` for a file with the given
content (the batching into `_b(n_blocks)` calls only groups consecutive
blocks and does not change the sequence). -/
def read_as_stream_blocks (content : List Nat) : List (List Nat) :=
  (chunk512 content).map (fun block => a2b_base64 (b2a_base64 block))

/-- `read_bytes`: `b''.join(self.read_as_stream())`. -/
def read_bytes_content (content : List Nat) : List Nat :=
  (read_as_stream_blocks content).flatten

/-! ### Directory trees

A source directory handed to `walk`, `glob` or the sync engine is a finite
tree; `iterdir` returns the children in listing order.  Names inside one
directory are listed with their entries; `is_dir`/`is_file` discriminate the
two node kinds. -/

inductive Entry where
  | file (data : List Nat)
  | dir (children : List (String × Entry))

def Entry.isDir : Entry → Bool
  | .dir _ => true
  | .file _ => false

/-! ### `walk` (`there/walk.py`, topdown)

`walk(dirpath)` lists the directory, partitions the entries into
directories and others, yields `(dirpath, dirnames, filenames)` and then
recurses into each directory, in listing order. -/

def dirChildren (cs : List (String × Entry)) : List (String × Entry) :=
  cs.filter (fun c => c.2.isDir)

def fileChildren (cs : List (String × Entry)) : List (String × Entry) :=
  cs.filter (fun c => !c.2.isDir)

mutual

def walkList : Entry → List String →
    List (List String × List (List String) × List (List String))
  | .file _, _ => []
  | .dir cs, p =>
    (p, (dirChildren cs).map (fun c => p ++ [c.1]),
        (fileChildren cs).map (fun c => p ++ [c.1])) :: walkChildren cs p

def walkChildren : List (String × Entry) → List String →
    List (List String × List (List String) × List (List String))
  | [], _ => []
  | (n, c) :: rest, p =>
    (if c.isDir then walkList c (p ++ [n]) else []) ++ walkChildren rest p

end

/-! ### Wildcard matching (`pathlib.PurePath.match`)

`MpyPath.glob` defers single-segment tests to `PurePath.match`: a relative
pattern of k segments matches a path whose last k components each satisfy
the fnmatch wildcard test (`*` any run, `?` one character; the `[...]`
classes of fnmatch are not exercised by the specification and are treated
as literal characters here). -/

def fnmatch : List Char → List Char → Bool
  | [], [] => true
  | [], _ :: _ => false
  | '*' :: ps, [] => fnmatch ps []
  | '*' :: ps, c :: cs => fnmatch ps (c :: cs) || fnmatch ('*' :: ps) cs
  | '?' :: ps, _ :: cs => fnmatch ps cs
  | '?' :: _, [] => false
  | q :: ps, c :: cs => q = c && fnmatch ps cs
  | _ :: _, [] => false
  termination_by p s => (p.length, s.length)

/-- `PurePath.match` with a relative pattern, given as its `/`-separated
segments, against the components of a path. -/
def matchRight (pat : List (List Char)) (comps : List String) : Bool :=
  !pat.isEmpty && pat.length ≤ comps.length &&
    ((comps.drop (comps.length - pat.length)).zip pat).all
      (fun x => fnmatch x.2 x.1.toList)

/-! ### `MpyPath.glob`

The pattern loses a leading `/`, is split on `/`, and is processed one
segment at a time: a single remaining segment is matched against the
directory listing (files and directories alike); a leading `**` walks the
whole subtree and yields the *filenames* entries of every `walk` tuple that
match the remaining pattern; any other leading segment recurses into the
child directories whose name matches it. -/

def splitOnSlash : List Char → List (List Char)
  | [] => [[]]
  | c :: rest =>
    match splitOnSlash rest with
    | [] => []
    | part :: parts =>
      if c = '/' then [] :: part :: parts else (c :: part) :: parts

mutual

def globModel : Entry → List String → List (List Char) → List (List String)
  | _, _, [] => []
  | e, base, [pat] =>
    (match e with
     | .file _ => []
     | .dir cs => cs.filterMap
        (fun c => if matchRight [pat] (base ++ [c.1]) then some (base ++ [c.1]) else none))
  | e, base, pat :: rest =>
    if pat = ['*', '*'] then
      (walkList e base).flatMap
        (fun t => t.2.2.filter (fun f => matchRight rest f))
    else
      (match e with
       | .file _ => []
       | .dir cs => globChildren cs base pat rest)

def globChildren : List (String × Entry) → List String → List Char →
    List (List Char) → List (List String)
  | [], _, _, _ => []
  | (n, c) :: cs, base, pat, rest =>
    (if c.isDir && matchRight [pat] [n] then globModel c (base ++ [n]) rest else []) ++
      globChildren cs base pat rest

end

/-- `MpyPath.glob(pattern)` itself: strip one leading `/`, split on `/`. -/
def glob (e : Entry) (base : List String) (pattern : List Char) : List (List String) :=
  let pattern := if pattern.head? = some '/' then pattern.tail else pattern
  globModel e base (splitOnSlash pattern)

mutual

/-- Modelled from the spec: the non-directory descendants of a directory
(itself included as level zero), in walk order — what "results from applying
the remainder at the current level and at every descendant directory" must
range over. -/
def allFiles : Entry → List String → List (List String)
  | .file _, _ => []
  | .dir cs, p =>
    (fileChildren cs).map (fun c => p ++ [c.1]) ++ allFilesChildren cs p

def allFilesChildren : List (String × Entry) → List String → List (List String)
  | [], _ => []
  | (n, c) :: rest, p =>
    (if c.isDir then allFiles c (p ++ [n]) else []) ++ allFilesChildren rest p

end

/-! ### The sync engine (`there/sync.py`)

`Sync` copies a source directory into a destination directory.  The source
is a tree (`Entry`), the destination the board filesystem (`DstFS`).  The
hash function is a parameter standing for SHA-256 (the development never
relies on any property of it, so the theorems hold for the real digest in
particular); `_hash_path` on a remote destination path follows
`MpyPath.sha256`: a missing file or a directory yields `b''`. -/

structure SyncCfg where
  dry_run : Bool
  force : Bool
  use_uhashlib : Bool
  hash : List Nat → List Nat

structure Counters where
  copied : Nat
  skipped : Nat
  deriving DecidableEq, Repr

def EXCLUDE_DIRS : List String := ["__pycache__", ".git"]

/-- `PurePath.relative_to`: drop the base prefix, `ValueError` otherwise. -/
def relative_to (base p : List String) : Option (List String) :=
  if base.isPrefixOf p then some (p.drop base.length) else none

/-- `Sync._hash_path` on a destination path (`MpyPath.sha256` recovery:
missing file or unreadable directory hash to `b''`, cf. `sha256_result`). -/
def hashAt (cfg : SyncCfg) (d : DstFS) (p : List String) : List Nat :=
  match nodeAt d p with
  | some (.file data) => cfg.hash data
  | some .dirnode => []
  | none => []

/-- `Sync._files_are_different` for a source file with contents `data`
against destination path `p`: size mismatch or a missing destination is
"different"; with hashing enabled, differing digests too. -/
def files_are_different (cfg : SyncCfg) (data : List Nat) (d : DstFS)
    (p : List String) : Bool :=
  match statSizeAt d p with
  | .error _ => true
  | .ok ds =>
    if data.length ≠ ds then true
    else cfg.use_uhashlib && decide (cfg.hash data ≠ hashAt cfg d p)

/-- `Sync.sync_file` for a source file `name` with contents `data` into the
destination path `dp` (the mapped directory): when `dp` is a directory the
write re-targets `dp/name`; copy when `force` or different, else skip.
Dry runs only count a skip. -/
def sync_file (cfg : SyncCfg) (name : String) (data : List Nat) (d : DstFS)
    (dp : List String) (cnt : Counters) : Except RemoteError (DstFS × Counters) :=
  if !cfg.dry_run then
    let dp' := if nodeAt d dp = some .dirnode then dp ++ [name] else dp
    if cfg.force || files_are_different cfg data d dp' then
      match writeAt d dp' data with
      | .ok d' => .ok (d', { cnt with copied := cnt.copied + 1 })
      | .error e => .error e
    else .ok (d, { cnt with skipped := cnt.skipped + 1 })
  else .ok (d, { cnt with skipped := cnt.skipped + 1 })

/-- The file loop of one `sync_directory` walk step: `sync_file` every
non-directory child into the mapped directory `dd`. -/
def syncFiles (cfg : SyncCfg) (cs : List (String × Entry)) (dd : List String)
    (d : DstFS) (cnt : Counters) : Except RemoteError (DstFS × Counters) :=
  match cs with
  | [] => .ok (d, cnt)
  | (n, .file data) :: rest =>
    match sync_file cfg n data d dd cnt with
    | .ok (d', cnt') => syncFiles cfg rest dd d' cnt'
    | .error e => .error e
  | (_, .dir _) :: rest => syncFiles cfg rest dd d cnt

mutual

/-- The recursive walk of `sync_directory` composed with its consumer loop:
for the current source directory, compute the mapped destination directory
(`dst / dirpath.relative_to(src.parent)`), `mkdir(parents=True,
exist_ok=True)` it (skipped in dry runs), sync every file child, prune the
excluded directory names, and recurse into the remaining directories in
listing order. -/
def syncGo (cfg : SyncCfg) (excl : List String) (e : Entry)
    (sp Sparent D : List String) (d : DstFS) (cnt : Counters) :
    Except RemoteError (DstFS × Counters) :=
  match e with
  | .file _ => .ok (d, cnt)
  | .dir cs =>
    match relative_to Sparent sp with
    | none => .error (.valueError [])
    | some rel =>
      let dd := D ++ rel
      match (if cfg.dry_run then .ok d else mkdirPath d dd true true :
          Except RemoteError DstFS) with
      | .error e => .error e
      | .ok d1 =>
        match syncFiles cfg cs dd d1 cnt with
        | .error e => .error e
        | .ok (d2, cnt2) => syncDirs cfg excl cs sp Sparent D d2 cnt2

def syncDirs (cfg : SyncCfg) (excl : List String) (cs : List (String × Entry))
    (sp Sparent D : List String) (d : DstFS) (cnt : Counters) :
    Except RemoteError (DstFS × Counters) :=
  match cs with
  | [] => .ok (d, cnt)
  | (n, c) :: rest =>
    if c.isDir && !excl.contains n then
      match syncGo cfg excl c (sp ++ [n]) Sparent D d cnt with
      | .ok (d', cnt') => syncDirs cfg excl rest sp Sparent D d' cnt'
      | .error e => .error e
    else syncDirs cfg excl rest sp Sparent D d cnt

end

/-- `Sync.sync_directory(src, dst, recursive=True)`: outside dry runs the
destination must exist and be a directory and the source must be a
directory; then walk the source top-down as above.  Counters start at zero
for the call. -/
def sync_directory (cfg : SyncCfg) (excl : List String) (e : Entry)
    (S : List String) (d : DstFS) (D : List String) :
    Except RemoteError (DstFS × Counters) :=
  if !cfg.dry_run then
    if nodeAt d D ≠ some .dirnode then .error (.valueError [])
    else if nodeAt d D = none then .error (.valueError [])
    else if !e.isDir then .error (.valueError [])
    else syncGo cfg excl e S S.dropLast D d ⟨0, 0⟩
  else syncGo cfg excl e S S.dropLast D d ⟨0, 0⟩

/-! Decidable well-formedness and postcondition predicates used by the sync
theorems. -/

mutual

/-- Every directory of the tree lists pairwise distinct names. -/
def nodupNames : Entry → Bool
  | .file _ => true
  | .dir cs => ((cs.map Prod.fst).Nodup : Bool) && nodupNamesChildren cs

def nodupNamesChildren : List (String × Entry) → Bool
  | [] => true
  | (_, c) :: rest => nodupNames c && nodupNamesChildren rest

end

mutual

/-- No (non-pruned) source directory maps onto a pre-existing regular file
in the destination: the condition the idempotence counterexample forces. -/
def dirsClear (excl : List String) : Entry → List String → DstFS → Bool
  | .file _, _, _ => true
  | .dir cs, dd, d =>
    (match nodeAt d dd with
     | some (.file _) => false
     | _ => true) && dirsClearChildren excl cs dd d

def dirsClearChildren (excl : List String) : List (String × Entry) →
    List String → DstFS → Bool
  | [], _, _ => true
  | (n, c) :: rest, dd, d =>
    (!(c.isDir && !excl.contains n) || dirsClear excl c (dd ++ [n]) d) &&
      dirsClearChildren excl rest dd d

end

/-- The skip condition of `sync_file` after re-targeting: the destination
file exists with the same size and (when hashing) the same digest. -/
def upToDate (cfg : SyncCfg) (data : List Nat) (d : DstFS) (p : List String) : Bool :=
  !files_are_different cfg data d p

mutual

/-- Established by a successful non-dry run: every mapped source directory
is a destination directory and every source file is up to date at its
mapped destination path. -/
def filesOk (cfg : SyncCfg) (excl : List String) : Entry → List String → DstFS → Bool
  | .file _, _, _ => true
  | .dir cs, dd, d =>
    (nodeAt d dd = some .dirnode : Bool) && filesOkChildren cfg excl cs dd d

def filesOkChildren (cfg : SyncCfg) (excl : List String) :
    List (String × Entry) → List String → DstFS → Bool
  | [], _, _ => true
  | (n, .file data) :: rest, dd, d =>
    upToDate cfg data d (dd ++ [n]) && filesOkChildren cfg excl rest dd d
  | (n, .dir cs') :: rest, dd, d =>
    (excl.contains n || filesOk cfg excl (.dir cs') (dd ++ [n]) d) &&
      filesOkChildren cfg excl rest dd d

end

mutual

/-- The number of files a (pruned) walk of the tree visits. -/
def countFiles (excl : List String) : Entry → Nat
  | .file _ => 0
  | .dir cs => (fileChildren cs).length + countFilesChildren excl cs

def countFilesChildren (excl : List String) : List (String × Entry) → Nat
  | [] => 0
  | (n, c) :: rest =>
    (if c.isDir && !excl.contains n then countFiles excl c else 0) +
      countFilesChildren excl rest

end

/-! ### Display escaping (`there/string_escape.py`)

Strings are sequences of code points (`Nat`).  `escaped` applies the
`ESCAPE_CONTROLS` translate table built from `repr` (so `\0 \a \b \t \n \v
\f \r`, lowercase `\xNN` for the remaining controls, `\ ` for the space,
`\x23` for `#`, `\\` for the backslash); `unescape` substitutes
`re_unescape = \\(\\|[0-7]{1,3}|x.[0-9a-f]?|['"abfnrt0]|.|$)` matches via
`_replace`, which raises `ValueError` for a trailing backslash or a bad hex
argument to `int(..., 16)` and `UnicodeDecodeError` for any other
unrecognised escape. -/

def hexDigitL (n : Nat) : Nat := if n < 10 then 48 + n else 87 + n

/-- The `ESCAPE_CONTROLS` entry for one code point. -/
def escChar (c : Nat) : List Nat :=
  if c = 0 then [92, 48]
  else if c = 7 then [92, 97]
  else if c = 8 then [92, 98]
  else if c = 9 then [92, 116]
  else if c = 10 then [92, 110]
  else if c = 11 then [92, 118]
  else if c = 12 then [92, 102]
  else if c = 13 then [92, 114]
  else if c < 32 then [92, 120, hexDigitL (c / 16), hexDigitL (c % 16)]
  else if c = 32 then [92, 32]
  else if c = 35 then [92, 120, 50, 51]
  else if c = 92 then [92, 92]
  else [c]

/-- `escaped(text) = text.translate(ESCAPE_CONTROLS)`. -/
def escaped (s : List Nat) : List Nat := s.flatMap escChar

inductive UnescErr where
  | valueErr
  | unicodeDecodeErr
  deriving DecidableEq, Repr

def isOctDigit (c : Nat) : Bool := 48 ≤ c && c ≤ 55

def octVal (ds : List Nat) : Nat := ds.foldl (fun a c => 8 * a + (c - 48)) 0

def isHexLower (c : Nat) : Bool := (48 ≤ c && c ≤ 57) || (97 ≤ c && c ≤ 102)

def hexDigVal? (c : Nat) : Option Nat :=
  if 48 ≤ c && c ≤ 57 then some (c - 48)
  else if 97 ≤ c && c ≤ 102 then some (c - 87)
  else if 65 ≤ c && c ≤ 70 then some (c - 55)
  else none

/-- `int(ds, 16)` as `_replace` uses it (`some` iff every char is a hex
digit; Python also accepts uppercase here). -/
def pyHexVal? (ds : List Nat) : Option Nat :=
  ds.foldl (fun a c => a.bind (fun v => (hexDigVal? c).map (fun h => 16 * v + h)))
    (some 0)

/-- `re_unescape.sub(_replace, text)`: scan for backslashes and substitute
each match, propagating the exceptions `_replace` raises.  The alternation
is tried in order: `\\`, one to three octal digits, `x` plus one arbitrary
character plus an optional lowercase hex digit, one of `'"abfnrt0`, any
single character (→ `UnicodeDecodeError`), or the bare end of the string
(→ `ValueError`). -/
def unescape : List Nat → Except UnescErr (List Nat)
  | [] => .ok []
  | 92 :: rest =>
    match rest with
    | [] => .error .valueErr
    | d :: rest' =>
      if d = 92 then (unescape rest').map (92 :: ·)
      else if isOctDigit d then
        let more := (rest'.takeWhile isOctDigit).take 2
        (unescape (rest'.drop more.length)).map (octVal (d :: more) :: ·)
      else if d = 120 then
        match rest' with
        | [] => .error .valueErr
        | c1 :: rest'' =>
          match rest'' with
          | c2 :: rest3 =>
            if isHexLower c2 then
              match pyHexVal? [c1, c2] with
              | some v => (unescape rest3).map (v :: ·)
              | none => .error .valueErr
            else
              match pyHexVal? [c1] with
              | some v => (unescape (c2 :: rest3)).map (v :: ·)
              | none => .error .valueErr
          | [] =>
            match pyHexVal? [c1] with
            | some v => (unescape ([] : List Nat)).map (v :: ·)
            | none => .error .valueErr
      else if d = 34 then (unescape rest').map (34 :: ·)
      else if d = 39 then (unescape rest').map (39 :: ·)
      else if d = 97 then (unescape rest').map (7 :: ·)
      else if d = 98 then (unescape rest').map (8 :: ·)
      else if d = 102 then (unescape rest').map (12 :: ·)
      else if d = 110 then (unescape rest').map (10 :: ·)
      else if d = 114 then (unescape rest').map (13 :: ·)
      else if d = 116 then (unescape rest').map (9 :: ·)
      else .error .unicodeDecodeErr
  | c :: rest => (unescape rest).map (c :: ·)
  termination_by s => s.length
  decreasing_by
    all_goals simp_all [List.length_drop]
    all_goals omega

/-- Well-formed byte strings. -/
def allBytes (data : List Nat) : Bool := data.all (· < 256)


/-- Concrete sync configuration for the examples: live run, no force,
identity hash. -/
def cfgW : SyncCfg := ⟨false, false, true, fun l => l⟩

/-- The spec example source tree: `a.txt` and `sub/b.txt`. -/
def srcW : Entry :=
  .dir [("a.txt", .file [97]), ("sub", .dir [("b.txt", .file [98])])]

/-- Fresh destination: just the target directory `/dst`. -/
def d0W : DstFS := [(["dst"], .dirnode)]

/-- Destination after the first sync of `srcW` into `/dst`. -/
def d1W : DstFS :=
  [(["dst", "src", "sub", "b.txt"], .file [98]),
   (["dst", "src", "sub"], .dirnode),
   (["dst", "src", "a.txt"], .file [97]),
   (["dst", "src"], .dirnode),
   (["dst"], .dirnode)]

/-- Two-file source tree for the counterexample. -/
def srcC : Entry :=
  .dir [("one", .file [111, 110, 101]), ("two", .file [116, 119, 111])]

/-- Destination that already holds a regular file at `/dst/src`, the path
the source directory maps onto. -/
def d0C : DstFS := [(["dst"], .dirnode), (["dst", "src"], .file [122])]

/-- Destination after the first sync of `srcC` into `d0C`. -/
def d1C : DstFS :=
  [(["dst", "src"], .file [116, 119, 111]),
   (["dst", "src"], .file [111, 110, 101]),
   (["dst"], .dirnode),
   (["dst", "src"], .file [122])]

/-- Destination after the second sync of `srcC`: two more copies. -/
def d2C : DstFS :=
  [(["dst", "src"], .file [116, 119, 111]),
   (["dst", "src"], .file [111, 110, 101]),
   (["dst", "src"], .file [116, 119, 111]),
   (["dst", "src"], .file [111, 110, 101]),
   (["dst"], .dirnode),
   (["dst", "src"], .file [122])]

/-! ## Helper lemmas -/

theorem pySplit_length (sep : Nat) (l : List Nat) :
    (pySplit sep l).length = l.count sep + 1 := by
  induction l with
  | nil => simp [pySplit]
  | cons b rest ih =>
    cases h : pySplit sep rest with
    | nil => rw [h] at ih; simp at ih
    | cons part parts =>
      rw [h] at ih
      simp only [List.length_cons] at ih
      by_cases hb : b = sep
      · simp [pySplit, h, hb, List.count_cons]
        omega
      · simp [pySplit, h, hb, List.count_cons]
        omega

theorem pySplit_single (sep : Nat) (l x : List Nat) (h : pySplit sep l = [x]) :
    l = x ∧ sep ∉ x := by
  induction l generalizing x with
  | nil =>
    simp only [pySplit, List.cons.injEq, and_true] at h
    simp [← h]
  | cons b rest ih =>
    cases h2 : pySplit sep rest with
    | nil => rw [pySplit, h2] at h; simp at h
    | cons part parts =>
      rw [pySplit, h2] at h
      by_cases hb : b = sep
      · simp [hb] at h
      · simp only [if_neg hb, List.cons.injEq] at h
        obtain ⟨hx, hp⟩ := h
        rw [hp] at h2
        obtain ⟨hr, hs⟩ := ih part h2
        subst hr
        refine ⟨hx, ?_⟩
        rw [← hx]
        simp only [List.mem_cons, not_or]
        exact ⟨fun hbs => hb hbs.symm, hs⟩

theorem pySplit_pair (sep : Nat) (l out err : List Nat)
    (h : pySplit sep l = [out, err]) :
    l = out ++ sep :: err ∧ sep ∉ out ∧ sep ∉ err := by
  induction l generalizing out with
  | nil => simp [pySplit] at h
  | cons b rest ih =>
    cases h2 : pySplit sep rest with
    | nil => rw [pySplit, h2] at h; simp at h
    | cons part parts =>
      rw [pySplit, h2] at h
      by_cases hb : b = sep
      · simp only [if_pos hb, List.cons.injEq] at h
        obtain ⟨ho, hp, hparts⟩ := h
        rw [hp, hparts] at h2
        obtain ⟨hr, hs⟩ := pySplit_single sep rest err h2
        subst hr hb
        simp [← ho, hs]
      · simp only [if_neg hb, List.cons.injEq] at h
        obtain ⟨ho, hrest⟩ := h
        rw [hrest] at h2
        obtain ⟨hl, hout, herr⟩ := ih part h2
        subst hl
        rw [← ho]
        refine ⟨rfl, ?_, herr⟩
        simp only [List.mem_cons, not_or]
        exact ⟨fun hbs => hb hbs.symm, hout⟩

/-- C3 (amended): the `CTRL-D missing in response` error is raised iff the
packet does not hold exactly one `0x04` byte — the two-name unpacking of
`data.split(b'\x04')` also fails when two or more `0x04` bytes are present;
when exactly one is present the packet splits at it into `out` and `err`,
both free of `0x04`. -/
theorem exec_raw_ctrlD_iff (data : List Nat) :
    (exec_raw_parse data = .error (.ctrlDMissing data) ↔ data.count 4 ≠ 1) ∧
    (∀ out err, pySplit 4 data = [out, err] →
      data = out ++ 4 :: err ∧ 4 ∉ out ∧ 4 ∉ err ∧ data.count 4 = 1) := by
  have hlen := pySplit_length 4 data
  constructor
  · rcases hsp : pySplit 4 data with _ | ⟨a, _ | ⟨b, _ | ⟨c, t⟩⟩⟩ <;>
      rw [hsp] at hlen <;> simp only [List.length_cons, List.length_nil] at hlen
    · constructor
      · intro _; omega
      · intro _; rw [exec_raw_parse, hsp]
    · constructor
      · intro _; omega
      · intro _; rw [exec_raw_parse, hsp]
    · constructor
      · intro h
        rw [exec_raw_parse, hsp] at h
        by_cases hc : bytesContains [79, 75] a = true <;> simp [hc] at h
      · intro h; omega
    · constructor
      · intro _; omega
      · intro _; rw [exec_raw_parse, hsp]
  · intro out err hsp
    obtain ⟨hl, ho, he⟩ := pySplit_pair 4 data out err hsp
    rw [hsp] at hlen
    simp only [List.length_cons, List.length_nil] at hlen
    exact ⟨hl, ho, he, by omega⟩

/-- C8 (amended): the RTC round trip never reads back more than the wall
time written, and the error is at most 7813 µs (1/256-second quantization,
up to two steps; the worst case attained over a second is 7812 µs at
999998 µs) — not 4 µs: for .500000 the read-back is 3907 µs early. -/
theorem rtc_roundtrip_error_bound (microsecond : Nat) (h : microsecond ≤ 999999) :
    rtc_roundtrip microsecond ≤ microsecond ∧
      microsecond - rtc_roundtrip microsecond ≤ 7813 := by
  unfold rtc_roundtrip read_rtc_microsecond set_rtc_subsecond
  omega


/-! ## C3 and C8 statement documentation, witnesses and counterexamples -/

/-- C3 witness: the well-formed packet `OK\x04h` splits into `OK` and `h`. -/
theorem exec_raw_ctrlD_iff_witness :
    ([79, 75, 4, 104] : List Nat) = [79, 75] ++ 4 :: [104] ∧
      4 ∉ ([79, 75] : List Nat) ∧ 4 ∉ ([104] : List Nat) ∧
      ([79, 75, 4, 104] : List Nat).count 4 = 1 :=
  (exec_raw_ctrlD_iff [79, 75, 4, 104]).2 [79, 75] [104] rfl

/-- C3 counterexample: the packet `OK\x04A\x04B` contains a `0x04` byte, yet
`exec_raw` raises the desync error instead of splitting at the first `0x04`
(the claim would require `out = OK`, `err = A\x04B` and no error). -/
theorem exec_raw_two_eots_counterexample :
    exec_raw_parse [79, 75, 4, 65, 4, 66] =
        .error (.ctrlDMissing [79, 75, 4, 65, 4, 66]) ∧
      (4 ∈ ([79, 75, 4, 65, 4, 66] : List Nat)) :=
  ⟨rfl, by decide⟩

/-- C8 counterexample: for 03:04:05.500000 the subsecond stored is 128 and
the read-back microsecond value is 496093 — 3907 µs below the original, not
within 4 µs. -/
theorem rtc_halfsecond_counterexample :
    rtc_roundtrip 500000 = 496093 ∧
      ¬ (500000 - rtc_roundtrip 500000 ≤ 4 ∧ rtc_roundtrip 500000 - 500000 ≤ 4) :=
  ⟨rfl, by decide⟩

/-- C8 witness: the bound instantiated at the .500000 example, plus the
worst case 999998 µs where the error reaches 7812 µs. -/
theorem rtc_roundtrip_error_bound_witness :
    (rtc_roundtrip 500000 ≤ 500000 ∧ 500000 - rtc_roundtrip 500000 ≤ 7813) ∧
      rtc_roundtrip 999998 = 992186 :=
  ⟨rtc_roundtrip_error_bound 500000 (by decide), rfl⟩

theorem matchOSError_head (l : List Char) (n : Nat)
    (h : matchOSError l = some n) : l.head? = some 'O' := by
  rw [matchOSError] at h
  cases hd : dropPrefixCh ("OSError: ".toList) l with
  | none => rw [hd] at h; exact absurd h (by simp)
  | some rest =>
    rw [dropPrefixCh] at hd
    by_cases hp : ("OSError: ".toList).isPrefixOf l
    · cases l with
      | nil => simp [List.isPrefixOf] at hp
      | cons c cs =>
        rw [show ("OSError: ".toList) = 'O' :: "SError: ".toList from rfl] at hp
        simp only [List.isPrefixOf, Bool.and_eq_true, beq_iff_eq] at hp
        obtain ⟨h1, _⟩ := hp
        subst h1
        rfl
    · rw [if_neg hp] at hd; exact absurd hd (by simp)

theorem matchExceptions_of_head_O (l : List Char) (h : l.head? = some 'O') :
    matchExceptions l = none := by
  cases l with
  | nil => simp at h
  | cons c cs =>
    simp only [List.head?_cons, Option.some.injEq] at h
    subst h
    rw [matchExceptions]
    have hv : dropPrefixCh ("ValueError: ".toList) ('O' :: cs) = none := by
      rw [dropPrefixCh, if_neg]
      intro hp
      rw [show "ValueError: ".toList = 'V' :: "alueError: ".toList from rfl] at hp
      simp [List.isPrefixOf] at hp
    have hk : dropPrefixCh ("KeyError: ".toList) ('O' :: cs) = none := by
      rw [dropPrefixCh, if_neg]
      intro hp
      rw [show "KeyError: ".toList = 'K' :: "eyError: ".toList from rfl] at hp
      simp [List.isPrefixOf] at hp
    have hi : dropPrefixCh ("ImportError: ".toList) ('O' :: cs) = none := by
      rw [dropPrefixCh, if_neg]
      intro hp
      rw [show "ImportError: ".toList = 'I' :: "mportError: ".toList from rfl] at hp
      simp [List.isPrefixOf] at hp
    rw [hv, hk, hi]

/-- C2 (amended): for every stderr text whose first line (per
`str.splitlines`) starts with `Traceback` and whose last line matches the
OSError regex with errno `n`, the classifier raises `FileNotFound` for 2,
`PermissionDenied` for 13, `FileExists` for 17, `NoSuchDevice` for 19 and
`OsError(n)` for any other nonzero `n`; for `n = 0` the `elif err_num:`
guard raises nothing (and the secondary ValueError/KeyError/ImportError
regex cannot match an `OSError:` line), so no typed error at all. -/
theorem parse_error_oserror_mapping (text first last : List Char) (n : Nat)
    (hhead : (splitlinesCh text).head? = some first)
    (hlast : (splitlinesCh text).getLast? = some last)
    (hfirst : ("Traceback".toList).isPrefixOf first = true)
    (hm : matchOSError last = some n) :
    parse_error text =
      (if n = 2 then some .fileNotFound
       else if n = 13 then some .permissionDenied
       else if n = 17 then some .fileExists
       else if n = 19 then some .noSuchDevice
       else if n = 0 then none
       else some (.osError n)) := by
  rw [parse_error]
  simp only [hhead, hlast]
  rw [if_pos hfirst]
  simp only [hm]
  have hmx := matchExceptions_of_head_O last (matchOSError_head last n hm)
  rcases Decidable.em (n = 2) with h2 | h2
  · simp [h2]
  rcases Decidable.em (n = 13) with h13 | h13
  · simp [h2, h13]
  rcases Decidable.em (n = 17) with h17 | h17
  · simp [h2, h13, h17]
  rcases Decidable.em (n = 19) with h19 | h19
  · simp [h2, h13, h17, h19]
  rcases Decidable.em (n = 0) with h0 | h0
  · simp [h2, h13, h17, h19, h0, hmx]
  · simp [h2, h13, h17, h19, h0]

/-- C2 witness: a full three-line traceback (header, `File "<stdin>"`
frame, `OSError: [Errno 2]` last line) maps to `FileNotFound`. -/
theorem parse_error_oserror_mapping_witness :
    parse_error (("Traceback (most recent call last):\n" ++
        "  File \x22<stdin>\x22, line 1, in <module>\n" ++
        "OSError: [Errno 2] ENOENT").toList) = some .fileNotFound := by
  have h := parse_error_oserror_mapping
    (("Traceback (most recent call last):\n" ++
        "  File \x22<stdin>\x22, line 1, in <module>\n" ++
        "OSError: [Errno 2] ENOENT").toList)
    ("Traceback (most recent call last):".toList)
    ("OSError: [Errno 2] ENOENT".toList) 2
    (by decide) (by decide) (by decide) (by decide)
  simpa using h

/-- C2 counterexample: `OSError: 0` matches the regex with N = 0, but the
classifier raises nothing (the claim demands `OsError(0)`). -/
theorem parse_error_errno_zero_counterexample :
    matchOSError ("OSError: 0".toList) = some 0 ∧
      parse_error ("Traceback (most recent call last):".toList ++
        '\n' :: "OSError: 0".toList) = none := by
  constructor
  · decide
  · decide

/-! ## C4: stat-cache invalidation -/

/-- C4 (amended): after a successful `unlink`, `rmdir`, `rename` or
`write_bytes` the path's `_stat_cache` slot is `None`, so the next `stat`
issues a fresh remote call; `mkdir`, however, never touches the slot. -/
theorem stat_cache_invalidation (cache : Option StatRec) (eo : Bool)
    (r : Except RemoteError Unit) (fresh : Except RemoteError StatRec) :
    (unlink_cache cache r).2 = none ∧
      (rename_cache cache r).2 = none ∧
      (write_bytes_cache cache r).2 = none ∧
      (r = .ok () → (rmdir_cache cache r).2 = none) ∧
      (mkdir_cache cache eo r).2 = cache ∧
      (stat_cached none fresh).1 = fresh := by
  refine ⟨rfl, rfl, rfl, fun h => ?_, rfl, ?_⟩
  · subst h; rfl
  · cases fresh <;> rfl

/-- C4 counterexample: a successful `mkdir` leaves a stale cached stat in
place (the slot is not `None`), and the next `stat` returns the stale
record rather than the fresh remote one. -/
theorem mkdir_keeps_stale_cache_counterexample :
    (mkdir_cache (some ⟨16877, 0⟩) true (.ok ())).2 = some ⟨16877, 0⟩ ∧
      (stat_cached (some ⟨16877, 0⟩) (.ok ⟨33204, 11⟩)).1 = .ok ⟨16877, 0⟩ ∧
      some (⟨16877, 0⟩ : StatRec) ≠ (none : Option StatRec) :=
  ⟨rfl, rfl, by simp⟩

/-! ## C5: sha256 recovery cases -/

/-- C5: `sha256` recovers exactly as claimed: a remote `ImportError`
(uhashlib absent) switches to the host-side fallback, whose result is
returned, with a missing file there (`FileNotFoundError`) giving `b\'\'`;
any remote `OSError` — `FileNotFoundError` for a missing file included —
gives `b\'\'`; every other error propagates (from the fallback too). -/
theorem sha256_recovery_cases (digest : List Nat)
    (fb : Except RemoteError (List Nat)) (msg : List Char) (e e2 : RemoteError) :
    (sha256_result (.ok digest) fb = .ok digest) ∧
      (sha256_result (.error (.importError msg)) (.ok digest) = .ok digest) ∧
      (sha256_result (.error (.importError msg)) (.error .fileNotFound) = .ok []) ∧
      (e2.isFileNotFound = false →
        sha256_result (.error (.importError msg)) (.error e2) = .error e2) ∧
      (e.isOSError = true → sha256_result (.error e) fb = .ok []) ∧
      (e.isOSError = false → e.isImportError = false →
        sha256_result (.error e) fb = .error e) := by
  refine ⟨rfl, rfl, rfl, fun h => ?_, fun h => ?_, fun h h2 => ?_⟩
  · simp [sha256_result, RemoteError.isImportError, h]
  · cases e <;> simp_all [sha256_result, RemoteError.isOSError,
      RemoteError.isImportError]
  · cases e <;> simp_all [sha256_result, RemoteError.isOSError,
      RemoteError.isImportError]

/-- C5 witness: the cases instantiated — remote PermissionError (an OSError)
gives the empty digest, a fallback KeyError propagates. -/
theorem sha256_recovery_cases_witness :
    (RemoteError.permissionDenied.isFileNotFound = false →
      sha256_result (.error (.importError "no uhashlib".toList))
        (.error .permissionDenied) = .error .permissionDenied) ∧
    (RemoteError.permissionDenied.isOSError = true →
      sha256_result (.error .permissionDenied) (.ok [1]) = .ok []) := by
  have h := sha256_recovery_cases [1] (.ok [1]) ("no uhashlib".toList)
    .permissionDenied .permissionDenied
  exact ⟨fun _ => h.2.2.2.1 rfl, fun _ => h.2.2.2.2.1 rfl⟩

/-! ## C10: mkdir ignores `parents` -/

/-- C10: `MpyPath.mkdir` issues exactly one remote `os.mkdir` call, never
reads its `parents` argument, and propagates the error of a missing parent
directory even with `parents=True` (only `FileExistsError` is swallowed,
when `exist_ok`). -/
theorem mpypath_mkdir_ignores_parents (d : DstFS) (p : List String)
    (pa pb eo : Bool) :
    mkdirPathLogged d p pa eo = mkdirPathLogged d p pb eo ∧
      (mkdirPathLogged d p pa eo).2 = [p] ∧
      (mkdirAt d p = .error .fileNotFound →
        mkdirPath d p true eo = .error .fileNotFound) := by
  refine ⟨rfl, rfl, fun h => ?_⟩
  unfold mkdirPath mkdirPathLogged
  rw [h]

/-- C10 witness: creating `/a/b` on an empty board with `parents=True`
still fails with `FileNotFoundError` (the ancestor `/a` is not created). -/
theorem mpypath_mkdir_ignores_parents_witness :
    mkdirPath [] ["a", "b"] true true = .error .fileNotFound :=
  (mpypath_mkdir_ignores_parents [] ["a", "b"] true false true).2.2 rfl

/-! ## C9: the display-escape helper and its unescape inverse -/

/-- C9 (code bug): `escaped` emits `\\ ` for the space and `\\v` for the
vertical tab, but `_replace` recognises neither (the regex class
`[\'"abfnrt0]` lacks `v`, and a space after the backslash falls to the
catch-all alternative), so `unescape(escaped(s))` raises
`UnicodeDecodeError` instead of returning `s`. -/
theorem unescape_escaped_space_raises :
    escaped [32] = [92, 32] ∧
      unescape (escaped [32]) = .error .unicodeDecodeErr ∧
      escaped [11] = [92, 118] ∧
      unescape (escaped [11]) = .error .unicodeDecodeErr := by
  refine ⟨rfl, ?_, rfl, ?_⟩ <;>
    simp [escaped, escChar, unescape, isOctDigit]

/-! ## C1: base64 / chunking round trip -/

theorem charSextet_inv : ∀ v, v < 64 → charSextet? (sextetChar v) = some v := by
  decide

theorem wsSextet_none (c : Nat) (h : isPyWhitespace c = true) :
    charSextet? c = none := by
  simp only [isPyWhitespace, Bool.or_eq_true, decide_eq_true_eq] at h
  rcases h with ((((h | h) | h) | h) | h) | h <;> subst h <;> decide

theorem filterMap_rstripWs (x : List Nat) :
    (rstripWs x).filterMap charSextet? = x.filterMap charSextet? := by
  have hx : x = rstripWs x ++ (x.reverse.takeWhile isPyWhitespace).reverse := by
    rw [rstripWs, ← List.reverse_append, List.takeWhile_append_dropWhile,
      List.reverse_reverse]
  conv_rhs => rw [hx]
  rw [List.filterMap_append]
  have hws : ((x.reverse.takeWhile isPyWhitespace).reverse).filterMap charSextet? = [] := by
    rw [List.filterMap_eq_nil_iff]
    intro a ha
    rw [List.mem_reverse] at ha
    exact wsSextet_none a (List.mem_takeWhile_imp ha)
  rw [hws, List.append_nil]

theorem dec_enc (l : List Nat) (h : allBytes l = true) :
    decodeSextets ((b2aChars l).filterMap charSextet?) = l := by
  induction l using b2aChars.induct with
  | case1 a b c rest ih =>
    simp only [allBytes, List.all_cons, Bool.and_eq_true, decide_eq_true_eq] at h
    obtain ⟨ha, hb, hc, hrest⟩ := h
    rw [b2aChars,
      List.filterMap_cons_some (charSextet_inv _ (by omega)),
      List.filterMap_cons_some (charSextet_inv _ (by omega)),
      List.filterMap_cons_some (charSextet_inv _ (by omega)),
      List.filterMap_cons_some (charSextet_inv _ (by omega))]
    simp only [decodeSextets]
    rw [ih (by simp [allBytes, hrest])]
    simp only [List.cons.injEq]
    exact ⟨by omega, by omega, by omega, trivial⟩
  | case2 a b =>
    simp only [allBytes, List.all_cons, Bool.and_eq_true, decide_eq_true_eq] at h
    obtain ⟨ha, hb, -⟩ := h
    rw [b2aChars,
      List.filterMap_cons_some (charSextet_inv _ (by omega)),
      List.filterMap_cons_some (charSextet_inv _ (by omega)),
      List.filterMap_cons_some (charSextet_inv _ (by omega)),
      List.filterMap_cons_none (show charSextet? 61 = none from rfl),
      List.filterMap_nil]
    simp only [decodeSextets]
    simp only [List.cons.injEq]
    exact ⟨by omega, by omega, trivial⟩
  | case3 a =>
    simp only [allBytes, List.all_cons, Bool.and_eq_true, decide_eq_true_eq] at h
    obtain ⟨ha, -⟩ := h
    rw [b2aChars,
      List.filterMap_cons_some (charSextet_inv _ (by omega)),
      List.filterMap_cons_some (charSextet_inv _ (by omega)),
      List.filterMap_cons_none (show charSextet? 61 = none from rfl),
      List.filterMap_cons_none (show charSextet? 61 = none from rfl),
      List.filterMap_nil]
    simp only [decodeSextets]
    simp only [List.cons.injEq]
    exact ⟨by omega, trivial⟩
  | case4 => rfl

theorem a2b_b2a (c : List Nat) (h : allBytes c = true) :
    a2b_base64 (b2a_base64 c) = c := by
  rw [a2b_base64, b2a_base64, List.filterMap_append]
  rw [show ([10] : List Nat).filterMap charSextet? = [] from rfl, List.append_nil]
  exact dec_enc c h

theorem a2b_rstrip_b2a (c : List Nat) (h : allBytes c = true) :
    a2b_base64 (rstripWs (b2a_base64 c)) = c := by
  rw [a2b_base64, filterMap_rstripWs, ← a2b_base64]
  exact a2b_b2a c h

theorem chunk512_flatten (l : List Nat) : (chunk512 l).flatten = l := by
  induction l using chunk512.induct with
  | case1 => simp [chunk512]
  | case2 l hl ih =>
    rw [chunk512, if_neg hl]
    simp only [List.flatten_cons, ih, List.take_append_drop]

theorem chunk512_allBytes (l : List Nat) (h : allBytes l = true) :
    ∀ c ∈ chunk512 l, allBytes c = true := by
  induction l using chunk512.induct with
  | case1 => intro c hc; rw [show chunk512 [] = [] by simp [chunk512]] at hc; simp at hc
  | case2 l hl ih =>
    rw [chunk512, if_neg hl]
    intro c hc
    rcases List.mem_cons.mp hc with hc | hc
    · subst hc
      rw [allBytes, List.all_eq_true]
      intro x hx
      rw [allBytes, List.all_eq_true] at h
      exact h x (List.mem_of_mem_take hx)
    · refine ih ?_ c hc
      rw [allBytes, List.all_eq_true]
      intro x hx
      rw [allBytes, List.all_eq_true] at h
      exact h x (List.mem_of_mem_drop hx)

/-- C1: `write_bytes(p, B)` produces exactly the file content `B` on the
board (each 512-byte chunk survives its base64 trip), and `read_bytes(p)`
then returns exactly `B` (each streamed 512-byte chunk survives its base64
trip): the write/read pipeline is the identity on file contents. -/
theorem write_read_roundtrip (data : List Nat) (h : allBytes data = true) :
    write_bytes_content data = data ∧
      read_bytes_content (write_bytes_content data) = data := by
  have hmapw : ∀ l : List Nat, allBytes l = true → write_bytes_content l = l := by
    intro l hl
    rw [write_bytes_content,
      List.map_congr_left (fun c hc => a2b_rstrip_b2a c (chunk512_allBytes l hl c hc)),
      List.map_id', chunk512_flatten]
  have hw := hmapw data h
  refine ⟨hw, ?_⟩
  rw [hw, read_bytes_content, read_as_stream_blocks,
    List.map_congr_left (fun c hc => a2b_b2a c (chunk512_allBytes data h c hc)),
    List.map_id', chunk512_flatten]

/-- C1 witness: a five-byte file round-trips unchanged. -/
theorem write_read_roundtrip_witness :
    write_bytes_content [0, 1, 255, 72, 101] = [0, 1, 255, 72, 101] ∧
      read_bytes_content (write_bytes_content [0, 1, 255, 72, 101]) =
        [0, 1, 255, 72, 101] :=
  write_read_roundtrip [0, 1, 255, 72, 101] (by decide)

/-! ## C7: glob with a `**` segment -/

theorem flatMap_filter {α β : Type} (l : List α) (f : α → List β) (P : β → Bool) :
    l.flatMap (fun a => (f a).filter P) = (l.flatMap f).filter P := by
  induction l with
  | nil => rfl
  | cons a rest ih => simp [List.flatMap_cons, List.filter_append, ih]

mutual

theorem walk_files_go (e : Entry) (p : List String) :
    (walkList e p).flatMap (fun t => t.2.2) = allFiles e p :=
  match e with
  | .file _ => by simp [walkList, allFiles]
  | .dir cs => by
    rw [walkList, allFiles]
    simp only [List.flatMap_cons]
    rw [walk_files_children cs p]

theorem walk_files_children (cs : List (String × Entry)) (p : List String) :
    (walkChildren cs p).flatMap (fun t => t.2.2) = allFilesChildren cs p :=
  match cs with
  | [] => by simp [walkChildren, allFilesChildren]
  | (n, c) :: rest => by
    rw [walkChildren, allFilesChildren]
    rw [List.flatMap_append, walk_files_children rest p]
    rcases hc : c.isDir with hd | hd
    · simp
    · simp [walk_files_go c (p ++ [n])]

end

/-- C7 (amended): at a leading `**` segment, glob yields exactly the
*non-directory* descendants (of the current level and of every descendant
directory, in walk order) whose path matches the remaining pattern;
directories matching the final segment are *not* yielded.  Concretely,
`glob('/**/foo')` yields `/foo` and `/a/b/foo` when those are regular
files, and never `/foobar` nor a directory `/d/foo`. -/
theorem glob_doublestar_files (e : Entry) (base : List String) (r : List Char)
    (rs : List (List Char)) :
    globModel e base (['*', '*'] :: r :: rs) =
        (allFiles e base).filter (fun f => matchRight (r :: rs) f) ∧
      glob (.dir [("foo", .file [1]),
                  ("a", .dir [("b", .dir [("foo", .file [2])])]),
                  ("foobar", .file [3]),
                  ("d", .dir [("foo", .dir [])])]) [] ("/**/foo".toList) =
        [["foo"], ["a", "b", "foo"]] := by
  constructor
  · rw [globModel.eq_def]
    simp only [if_pos rfl]
    rw [flatMap_filter (walkList e base) (fun t => t.2.2)
      (fun f => matchRight (r :: rs) f)]
    rw [walk_files_go e base]
    simp
  · simp [glob, globModel, splitOnSlash, walkList, walkChildren, matchRight,
      fnmatch, dirChildren, fileChildren, Entry.isDir]

/-- C7 counterexample: with `/foo` a *directory* (and `/a/b/foo` a file),
`glob('/**/foo')` does not yield `/foo`, contradicting "entries matching the
final segment are yielded whether they are regular files or directories". -/
theorem glob_doublestar_misses_directory :
    glob (.dir [("foo", .dir []),
                ("a", .dir [("b", .dir [("foo", .file [2])])])]) []
        ("/**/foo".toList) = [["a", "b", "foo"]] ∧
      ["foo"] ∉ glob (.dir [("foo", .dir []),
                ("a", .dir [("b", .dir [("foo", .file [2])])])]) []
        ("/**/foo".toList) := by
  have h : glob (.dir [("foo", .dir []),
      ("a", .dir [("b", .dir [("foo", .file [2])])])]) []
      ("/**/foo".toList) = [["a", "b", "foo"]] := by
    simp [glob, globModel, splitOnSlash, walkList, walkChildren, matchRight,
      fnmatch, dirChildren, fileChildren, Entry.isDir]
  refine ⟨h, ?_⟩
  rw [h]
  decide


/-! ## C6: sync idempotence — filesystem and path lemmas -/

theorem nodeAt_root (d : DstFS) : nodeAt d [] = some .dirnode := by
  simp [nodeAt]

theorem nodeAt_cons (p : List String) (v : Node) (d : DstFS) (q : List String)
    (hq : q ≠ []) :
    nodeAt ((p, v) :: d) q = if q = p then some v else nodeAt d q := by
  simp only [nodeAt, assocFind, if_neg hq]

theorem snoc_ne_nil (l : List String) (n : String) : l ++ [n] ≠ [] := by simp

theorem snoc_ne_self (l : List String) (n : String) : l ++ [n] ≠ l := by
  intro h
  have := congrArg List.length h
  simp at this

theorem snoc_prefix_snoc (dd : List String) (a b : String)
    (h : dd ++ [a] <+: dd ++ [b]) : a = b := by
  have hl : (dd ++ [b]).length ≤ (dd ++ [a]).length := by simp
  have h2 := List.IsPrefix.eq_of_length_le h hl
  have h3 := List.append_cancel_left h2
  simpa using h3

theorem not_prefix_of_not_prefix_base (dd t q : List String)
    (h : ¬ dd <+: q) : ¬ dd ++ t <+: q :=
  fun hp => h ((List.prefix_append dd t).trans hp)

theorem snoc_not_prefix_self (dd : List String) (n : String) :
    ¬ dd ++ [n] <+: dd := by
  intro h
  have := h.length_le
  simp at this

theorem prefix_snoc_unique (dd : List String) (a b : String) (q : List String)
    (ha : dd ++ [a] <+: q) (hb : dd ++ [b] <+: q) : a = b := by
  rcases List.prefix_or_prefix_of_prefix ha hb with h | h
  · exact snoc_prefix_snoc dd a b h
  · exact (snoc_prefix_snoc dd b a h).symm

theorem append_prefix_left_eq_nil (D r : List String) (h : D ++ r <+: D) :
    r = [] := by
  have h2 := h.length_le
  rw [List.length_append] at h2
  exact List.length_eq_zero.mp (by omega)

theorem nodup_keys_eq (cs : List (String × Entry)) (n : String) (a b : Entry)
    (hnodup : (cs.map Prod.fst).Nodup) (ha : (n, a) ∈ cs) (hb : (n, b) ∈ cs) :
    a = b := by
  induction cs with
  | nil => simp at ha
  | cons c rest ih =>
    simp only [List.map_cons, List.nodup_cons] at hnodup
    rcases List.mem_cons.mp ha with ha1 | ha1 <;>
      rcases List.mem_cons.mp hb with hb1 | hb1
    · exact congrArg Prod.snd (ha1.trans hb1.symm)
    · exfalso
      apply hnodup.1
      rw [← ha1]
      simpa using List.mem_map_of_mem Prod.fst hb1
    · exfalso
      apply hnodup.1
      rw [← hb1]
      simpa using List.mem_map_of_mem Prod.fst ha1
    · exact ih hnodup.2 ha1 hb1

theorem relative_to_eq (b p r : List String) :
    relative_to b p = some r ↔ p = b ++ r := by
  rw [relative_to]
  by_cases h : b.isPrefixOf p
  · rw [if_pos h, Option.some.injEq]
    rw [List.isPrefixOf_iff_prefix] at h
    obtain ⟨t, ht⟩ := h
    subst ht
    rw [List.drop_left]
    constructor
    · intro h2; rw [h2]
    · intro h2; exact List.append_cancel_left h2
  · rw [if_neg h]
    simp only [false_iff, reduceCtorEq]
    intro h2
    apply h
    rw [List.isPrefixOf_iff_prefix, h2]
    exact List.prefix_append b r

theorem writeAt_ok (d : DstFS) (p : List String) (data : List Nat) (d2 : DstFS)
    (h : writeAt d p data = .ok d2) :
    d2 = (p, .file data) :: d ∧ p ≠ [] := by
  have hp : p ≠ [] := by
    intro hp
    subst hp
    rw [writeAt, nodeAt_root] at h
    exact absurd h (by simp)
  rw [writeAt] at h
  cases hn : nodeAt d p with
  | some v =>
    cases v with
    | dirnode => rw [hn] at h; exact absurd h (by simp)
    | file fd =>
      rw [hn] at h
      simp only [Except.ok.injEq] at h
      exact ⟨h.symm, hp⟩
  | none =>
    rw [hn] at h
    cases hpar : nodeAt d p.dropLast with
    | none => rw [hpar] at h; exact absurd h (by simp)
    | some v =>
      cases v with
      | dirnode =>
        rw [hpar] at h
        simp only [Except.ok.injEq] at h
        exact ⟨h.symm, hp⟩
      | file fd => rw [hpar] at h; exact absurd h (by simp)

theorem writeAt_frame (d : DstFS) (p : List String) (data : List Nat) (d2 : DstFS)
    (h : writeAt d p data = .ok d2) (q : List String) (hq : q ≠ p) :
    nodeAt d2 q = nodeAt d q := by
  obtain ⟨hd, hp⟩ := writeAt_ok d p data d2 h
  subst hd
  by_cases hqn : q = []
  · subst hqn; rw [nodeAt_root, nodeAt_root]
  · rw [nodeAt_cons _ _ _ _ hqn, if_neg hq]

theorem writeAt_self (d : DstFS) (p : List String) (data : List Nat) (d2 : DstFS)
    (h : writeAt d p data = .ok d2) :
    nodeAt d2 p = some (.file data) := by
  obtain ⟨hd, hp⟩ := writeAt_ok d p data d2 h
  subst hd
  rw [nodeAt_cons _ _ _ _ hp, if_pos rfl]

theorem mkdirPath_of_some (d : DstFS) (p : List String) (v : Node) (pa : Bool)
    (h : nodeAt d p = some v) : mkdirPath d p pa true = .ok d := by
  have hm : mkdirAt d p = .error .fileExists := by rw [mkdirAt, h]
  rw [mkdirPath, mkdirPathLogged, hm]
  rfl

theorem mkdirPath_ok (d : DstFS) (p : List String) (pa : Bool) (d2 : DstFS)
    (h : mkdirPath d p pa true = .ok d2) :
    (d2 = d ∧ ∃ v, nodeAt d p = some v) ∨
      (d2 = (p, .dirnode) :: d ∧ nodeAt d p = none ∧ p ≠ []) := by
  rw [mkdirPath, mkdirPathLogged] at h
  cases hn : nodeAt d p with
  | some v =>
    left
    have hm : mkdirAt d p = .error .fileExists := by rw [mkdirAt, hn]
    rw [hm] at h
    simp at h
    exact ⟨h.symm, v, rfl⟩
  | none =>
    right
    have hp : p ≠ [] := by
      intro hp; subst hp; rw [nodeAt_root] at hn; exact Option.noConfusion hn
    rw [mkdirAt, hn] at h
    cases hpar : nodeAt d p.dropLast with
    | none => rw [hpar] at h; exact absurd h (by simp)
    | some v =>
      cases v with
      | dirnode =>
        rw [hpar] at h
        simp only [Except.ok.injEq] at h
        exact ⟨h.symm, rfl, hp⟩
      | file fd => rw [hpar] at h; exact absurd h (by simp)

theorem mkdirPath_frame (d : DstFS) (p : List String) (pa : Bool) (d2 : DstFS)
    (h : mkdirPath d p pa true = .ok d2) (q : List String) (hq : q ≠ p) :
    nodeAt d2 q = nodeAt d q := by
  rcases mkdirPath_ok d p pa d2 h with ⟨hd, -⟩ | ⟨hd, -, hp⟩
  · subst hd; rfl
  · subst hd
    by_cases hqn : q = []
    · subst hqn; rw [nodeAt_root, nodeAt_root]
    · rw [nodeAt_cons _ _ _ _ hqn, if_neg hq]

theorem mkdirPath_self (d : DstFS) (p : List String) (pa : Bool) (d2 : DstFS)
    (h : mkdirPath d p pa true = .ok d2)
    (hnf : ∀ fd, nodeAt d p ≠ some (.file fd)) :
    nodeAt d2 p = some .dirnode := by
  rcases mkdirPath_ok d p pa d2 h with ⟨hd, v, hv⟩ | ⟨hd, -, hp⟩
  · subst hd
    cases v with
    | dirnode => exact hv
    | file fd => exact absurd hv (hnf fd)
  · subst hd
    rw [nodeAt_cons _ _ _ _ hp, if_pos rfl]

theorem files_are_different_congr (cfg : SyncCfg) (data : List Nat)
    (d d2 : DstFS) (p : List String) (h : nodeAt d2 p = nodeAt d p) :
    files_are_different cfg data d2 p = files_are_different cfg data d p := by
  rw [files_are_different, files_are_different, statSizeAt, statSizeAt, h,
    hashAt, hashAt, h]

theorem upToDate_congr (cfg : SyncCfg) (data : List Nat) (d d2 : DstFS)
    (p : List String) (h : nodeAt d2 p = nodeAt d p) :
    upToDate cfg data d2 p = upToDate cfg data d p := by
  rw [upToDate, upToDate, files_are_different_congr cfg data d d2 p h]

theorem upToDate_of_file (cfg : SyncCfg) (data : List Nat) (d : DstFS)
    (t : List String) (h : nodeAt d t = some (.file data)) :
    upToDate cfg data d t = true := by
  simp [upToDate, files_are_different, statSizeAt, hashAt, h]


/-! C6 — sync_file and the file loop -/

theorem sync_file_skip (cfg : SyncCfg) (n : String) (data : List Nat) (d : DstFS)
    (dp : List String) (cnt : Counters) (hdry : cfg.dry_run = false)
    (hforce : cfg.force = false) (hdir : nodeAt d dp = some .dirnode)
    (hok : upToDate cfg data d (dp ++ [n]) = true) :
    sync_file cfg n data d dp cnt = .ok (d, ⟨cnt.copied, cnt.skipped + 1⟩) := by
  have hdiff : files_are_different cfg data d (dp ++ [n]) = false := by
    rw [upToDate] at hok
    simpa using hok
  rw [sync_file, hdry]
  simp [hdir, hforce, hdiff]

theorem sync_file_run1 (cfg : SyncCfg) (n : String) (data : List Nat)
    (d : DstFS) (dp : List String) (cnt : Counters) (d2 : DstFS) (cnt2 : Counters)
    (hdry : cfg.dry_run = false) (hforce : cfg.force = false)
    (hdir : nodeAt d dp = some .dirnode)
    (h : sync_file cfg n data d dp cnt = .ok (d2, cnt2)) :
    upToDate cfg data d2 (dp ++ [n]) = true ∧
      ∀ q, q ≠ dp ++ [n] → nodeAt d2 q = nodeAt d q := by
  rw [sync_file, hdry] at h
  simp only [Bool.not_false, if_true, hdir, hforce, Bool.false_or] at h
  cases hdiff : files_are_different cfg data d (dp ++ [n]) with
  | false =>
    rw [hdiff, if_neg (by simp)] at h
    simp only [Except.ok.injEq, Prod.mk.injEq] at h
    obtain ⟨hd2, -⟩ := h
    subst hd2
    constructor
    · rw [upToDate, hdiff]
      rfl
    · intro q _; rfl
  | true =>
    rw [hdiff, if_pos rfl] at h
    cases hw : writeAt d (dp ++ [n]) data with
    | error e => rw [hw] at h; exact absurd h (by simp)
    | ok dw =>
      rw [hw] at h
      simp only [Except.ok.injEq, Prod.mk.injEq] at h
      obtain ⟨hd2, -⟩ := h
      subst hd2
      constructor
      · exact upToDate_of_file _ _ _ _ (writeAt_self _ _ _ _ hw)
      · exact writeAt_frame _ _ _ _ hw

theorem syncFiles_run1 (cfg : SyncCfg) (cs : List (String × Entry))
    (dd : List String) :
    ∀ (d : DstFS) (cnt : Counters) (d2 : DstFS) (cnt2 : Counters),
    cfg.dry_run = false → cfg.force = false →
    nodeAt d dd = some .dirnode → (cs.map Prod.fst).Nodup →
    syncFiles cfg cs dd d cnt = .ok (d2, cnt2) →
    (∀ q, (∀ n dt, (n, Entry.file dt) ∈ cs → q ≠ dd ++ [n]) →
        nodeAt d2 q = nodeAt d q) ∧
      (∀ n dt, (n, Entry.file dt) ∈ cs → upToDate cfg dt d2 (dd ++ [n]) = true) ∧
      nodeAt d2 dd = some .dirnode := by
  induction cs with
  | nil =>
    intro d cnt d2 cnt2 hdry hforce hdir hnodup h
    rw [syncFiles] at h
    simp only [Except.ok.injEq, Prod.mk.injEq] at h
    obtain ⟨hd2, -⟩ := h
    subst hd2
    exact ⟨fun q _ => rfl, by simp, hdir⟩
  | cons c rest ih =>
    intro d cnt d2 cnt2 hdry hforce hdir hnodup h
    obtain ⟨n, c⟩ := c
    simp only [List.map_cons, List.nodup_cons] at hnodup
    cases c with
    | dir cs' =>
      rw [syncFiles] at h
      obtain ⟨hfr, hup, hdd⟩ := ih d cnt d2 cnt2 hdry hforce hdir hnodup.2 h
      refine ⟨fun q hq => hfr q ?_, fun m dt hm => ?_, hdd⟩
      · intro m dt hm
        exact hq m dt (List.mem_cons_of_mem _ hm)
      · rcases List.mem_cons.mp hm with he | he
        · exact absurd he (by simp)
        · exact hup m dt he
    | file dt =>
      rw [syncFiles] at h
      cases hsf : sync_file cfg n dt d dd cnt with
      | error e => rw [hsf] at h; exact absurd h (by simp)
      | ok pr =>
        obtain ⟨da, cnta⟩ := pr
        rw [hsf] at h
        obtain ⟨hupa, hframea⟩ :=
          sync_file_run1 cfg n dt d dd cnt da cnta hdry hforce hdir hsf
        have hdira : nodeAt da dd = some .dirnode := by
          rw [hframea dd (fun he => snoc_ne_self dd n he.symm), hdir]
        obtain ⟨hfr, hup, hdd⟩ := ih da cnta d2 cnt2 hdry hforce hdira hnodup.2 h
        have hsep : ∀ m dt', (m, Entry.file dt') ∈ rest → dd ++ [n] ≠ dd ++ [m] := by
          intro m dt' hm he
          have : n = m := by
            have := List.append_cancel_left he
            simpa using this
          subst this
          exact hnodup.1 (by simpa using List.mem_map_of_mem Prod.fst hm)
        refine ⟨fun q hq => ?_, fun m dt' hm => ?_, hdd⟩
        · rw [hfr q (fun m dt' hm => hq m dt' (List.mem_cons_of_mem _ hm)),
            hframea q (hq n dt (List.mem_cons_self _ _))]
        · rcases List.mem_cons.mp hm with he | he
          · injection he with h1 h2
            injection h2 with h3
            rw [h1, h3]
            have heq : nodeAt d2 (dd ++ [n]) = nodeAt da (dd ++ [n]) :=
              hfr (dd ++ [n]) (fun m' dt'' hm' => hsep m' dt'' hm')
            rw [upToDate_congr cfg dt da d2 (dd ++ [n]) heq]
            exact hupa
          · exact hup m dt' he


theorem syncFiles_run2 (cfg : SyncCfg) (cs : List (String × Entry))
    (dd : List String) (d : DstFS) :
    ∀ (cnt : Counters),
    cfg.dry_run = false → cfg.force = false →
    nodeAt d dd = some .dirnode →
    (∀ n dt, (n, Entry.file dt) ∈ cs → upToDate cfg dt d (dd ++ [n]) = true) →
    syncFiles cfg cs dd d cnt =
      .ok (d, ⟨cnt.copied, cnt.skipped + (fileChildren cs).length⟩) := by
  induction cs with
  | nil =>
    intro cnt hdry hforce hdir hok
    rw [syncFiles]
    simp [fileChildren]
  | cons c rest ih =>
    intro cnt hdry hforce hdir hok
    obtain ⟨n, c⟩ := c
    cases c with
    | dir cs' =>
      rw [syncFiles]
      rw [ih cnt hdry hforce hdir
        (fun m dt hm => hok m dt (List.mem_cons_of_mem _ hm))]
      have hlen : (fileChildren ((n, Entry.dir cs') :: rest)).length =
          (fileChildren rest).length := by
        simp [fileChildren, Entry.isDir]
      rw [hlen]
    | file dt =>
      rw [syncFiles]
      simp only [sync_file_skip cfg n dt d dd cnt hdry hforce hdir
        (hok n dt (List.mem_cons_self _ _))]
      rw [ih ⟨cnt.copied, cnt.skipped + 1⟩ hdry hforce hdir
        (fun m dt' hm => hok m dt' (List.mem_cons_of_mem _ hm))]
      have hlen : (fileChildren ((n, Entry.file dt) :: rest)).length =
          (fileChildren rest).length + 1 := by
        simp [fileChildren, Entry.isDir]
      rw [hlen]
      have harith : cnt.skipped + 1 + (fileChildren rest).length =
          cnt.skipped + ((fileChildren rest).length + 1) := by omega
      rw [harith]

/-! C6 — the decidable predicates: elimination, introduction, monotonicity -/

theorem filesOk_elim_dir (cfg : SyncCfg) (excl : List String)
    (cs : List (String × Entry)) (dd : List String) (d : DstFS)
    (h : filesOk cfg excl (.dir cs) dd d = true) :
    nodeAt d dd = some .dirnode ∧ filesOkChildren cfg excl cs dd d = true := by
  rw [filesOk, Bool.and_eq_true] at h
  exact ⟨by simpa using h.1, h.2⟩

theorem filesOk_intro_dir (cfg : SyncCfg) (excl : List String)
    (cs : List (String × Entry)) (dd : List String) (d : DstFS)
    (h1 : nodeAt d dd = some .dirnode)
    (h2 : filesOkChildren cfg excl cs dd d = true) :
    filesOk cfg excl (.dir cs) dd d = true := by
  rw [filesOk, Bool.and_eq_true]
  exact ⟨by simpa using h1, h2⟩

theorem filesOkChildren_file_elim (cfg : SyncCfg) (excl : List String)
    (cs : List (String × Entry)) (dd : List String) (d : DstFS)
    (h : filesOkChildren cfg excl cs dd d = true) :
    ∀ n dt, (n, Entry.file dt) ∈ cs → upToDate cfg dt d (dd ++ [n]) = true := by
  induction cs with
  | nil => intro n dt hm; simp at hm
  | cons c rest ih =>
    intro n dt hm
    obtain ⟨m, c⟩ := c
    rcases List.mem_cons.mp hm with he | he
    · cases he
      rw [filesOkChildren, Bool.and_eq_true] at h
      exact h.1
    · cases c with
      | file dt' =>
        rw [filesOkChildren, Bool.and_eq_true] at h
        exact ih h.2 n dt he
      | dir cs' =>
        rw [filesOkChildren, Bool.and_eq_true] at h
        exact ih h.2 n dt he

theorem filesOkChildren_dir_elim (cfg : SyncCfg) (excl : List String)
    (cs : List (String × Entry)) (dd : List String) (d : DstFS)
    (h : filesOkChildren cfg excl cs dd d = true) :
    ∀ n cs', (n, Entry.dir cs') ∈ cs → excl.contains n = false →
      filesOk cfg excl (.dir cs') (dd ++ [n]) d = true := by
  induction cs with
  | nil => intro n cs' hm; simp at hm
  | cons c rest ih =>
    intro n cs' hm hex
    obtain ⟨m, c⟩ := c
    rcases List.mem_cons.mp hm with he | he
    · cases he
      rw [filesOkChildren, Bool.and_eq_true] at h
      have h1 := h.1
      rw [Bool.or_eq_true] at h1
      rcases h1 with hc | hc
      · rw [hex] at hc; exact absurd hc (by simp)
      · exact hc
    · cases c with
      | file dt' =>
        rw [filesOkChildren, Bool.and_eq_true] at h
        exact ih h.2 n cs' he hex
      | dir cs'' =>
        rw [filesOkChildren, Bool.and_eq_true] at h
        exact ih h.2 n cs' he hex

theorem filesOkChildren_intro (cfg : SyncCfg) (excl : List String)
    (cs : List (String × Entry)) (dd : List String) (d : DstFS)
    (hf : ∀ n dt, (n, Entry.file dt) ∈ cs → upToDate cfg dt d (dd ++ [n]) = true)
    (hd : ∀ n cs', (n, Entry.dir cs') ∈ cs → excl.contains n = false →
      filesOk cfg excl (.dir cs') (dd ++ [n]) d = true) :
    filesOkChildren cfg excl cs dd d = true := by
  induction cs with
  | nil => rfl
  | cons c rest ih =>
    obtain ⟨n, c⟩ := c
    cases c with
    | file dt =>
      rw [filesOkChildren, Bool.and_eq_true]
      refine ⟨hf n dt (List.mem_cons_self _ _), ih ?_ ?_⟩
      · exact fun m dt' hm => hf m dt' (List.mem_cons_of_mem _ hm)
      · exact fun m cs' hm hex => hd m cs' (List.mem_cons_of_mem _ hm) hex
    | dir cs' =>
      rw [filesOkChildren, Bool.and_eq_true]
      constructor
      · rw [Bool.or_eq_true]
        cases hex : excl.contains n with
        | true => left; rfl
        | false => right; exact hd n cs' (List.mem_cons_self _ _) hex
      · refine ih ?_ ?_
        · exact fun m dt' hm => hf m dt' (List.mem_cons_of_mem _ hm)
        · exact fun m cs'' hm hex => hd m cs'' (List.mem_cons_of_mem _ hm) hex

theorem nodupNames_elim (e : Entry) (cs : List (String × Entry))
    (h : nodupNames (.dir cs) = true) :
    (cs.map Prod.fst).Nodup ∧ nodupNamesChildren cs = true := by
  rw [nodupNames, Bool.and_eq_true] at h
  exact ⟨by simpa using h.1, h.2⟩

theorem nodupNamesChildren_elim (cs : List (String × Entry)) (n : String)
    (c : Entry) (h : nodupNamesChildren cs = true) (hm : (n, c) ∈ cs) :
    nodupNames c = true := by
  induction cs with
  | nil => simp at hm
  | cons hd rest ih =>
    obtain ⟨m, c'⟩ := hd
    rw [nodupNamesChildren, Bool.and_eq_true] at h
    rcases List.mem_cons.mp hm with he | he
    · cases he
      exact h.1
    · exact ih h.2 he

theorem dirsClear_elim_dir (excl : List String) (cs : List (String × Entry))
    (dd : List String) (d : DstFS)
    (h : dirsClear excl (.dir cs) dd d = true) :
    (∀ fd, nodeAt d dd ≠ some (.file fd)) ∧
      dirsClearChildren excl cs dd d = true := by
  rw [dirsClear, Bool.and_eq_true] at h
  refine ⟨?_, h.2⟩
  intro fd hfd
  have := h.1
  rw [hfd] at this
  exact absurd this (by simp)

theorem dirsClearChildren_elim (excl : List String)
    (cs : List (String × Entry)) (dd : List String) (d : DstFS)
    (h : dirsClearChildren excl cs dd d = true) :
    ∀ n cs', (n, Entry.dir cs') ∈ cs → excl.contains n = false →
      dirsClear excl (.dir cs') (dd ++ [n]) d = true := by
  induction cs with
  | nil => intro n cs' hm; simp at hm
  | cons c rest ih =>
    intro n cs' hm hex
    obtain ⟨m, c⟩ := c
    rw [dirsClearChildren, Bool.and_eq_true] at h
    rcases List.mem_cons.mp hm with he | he
    · cases he
      have h1 := h.1
      simp only [Entry.isDir, hex, Bool.not_false, Bool.and_true,
        Bool.not_true, Bool.false_or] at h1
      exact h1
    · exact ih h.2 n cs' he hex


mutual

theorem filesOk_mono (cfg : SyncCfg) (excl : List String) :
    ∀ (e : Entry) (dd : List String) (d d2 : DstFS),
    (∀ q, dd <+: q → nodeAt d2 q = nodeAt d q) →
    filesOk cfg excl e dd d2 = filesOk cfg excl e dd d
  | .file _, _, _, _, _ => rfl
  | .dir cs, dd, d, d2, h => by
    rw [filesOk, filesOk, h dd (List.prefix_refl dd),
      filesOkChildren_mono cfg excl cs dd d d2 h]

theorem filesOkChildren_mono (cfg : SyncCfg) (excl : List String) :
    ∀ (cs : List (String × Entry)) (dd : List String) (d d2 : DstFS),
    (∀ q, dd <+: q → nodeAt d2 q = nodeAt d q) →
    filesOkChildren cfg excl cs dd d2 = filesOkChildren cfg excl cs dd d
  | [], _, _, _, _ => rfl
  | (n, .file dt) :: rest, dd, d, d2, h => by
    rw [filesOkChildren, filesOkChildren,
      upToDate_congr cfg dt d d2 (dd ++ [n])
        (h (dd ++ [n]) (List.prefix_append dd [n])),
      filesOkChildren_mono cfg excl rest dd d d2 h]
  | (n, .dir cs') :: rest, dd, d, d2, h => by
    rw [filesOkChildren, filesOkChildren,
      filesOk_mono cfg excl (.dir cs') (dd ++ [n]) d d2
        (fun q hq => h q ((List.prefix_append dd [n]).trans hq)),
      filesOkChildren_mono cfg excl rest dd d d2 h]

end

mutual

theorem dirsClear_mono (excl : List String) :
    ∀ (e : Entry) (dd : List String) (d d2 : DstFS),
    (∀ q, dd <+: q → nodeAt d2 q = nodeAt d q) →
    dirsClear excl e dd d2 = dirsClear excl e dd d
  | .file _, _, _, _, _ => rfl
  | .dir cs, dd, d, d2, h => by
    rw [dirsClear, dirsClear, h dd (List.prefix_refl dd),
      dirsClearChildren_mono excl cs dd d d2 h]

theorem dirsClearChildren_mono (excl : List String) :
    ∀ (cs : List (String × Entry)) (dd : List String) (d d2 : DstFS),
    (∀ q, dd <+: q → nodeAt d2 q = nodeAt d q) →
    dirsClearChildren excl cs dd d2 = dirsClearChildren excl cs dd d
  | [], _, _, _, _ => rfl
  | (n, c) :: rest, dd, d, d2, h => by
    rw [dirsClearChildren, dirsClearChildren,
      dirsClearChildren_mono excl rest dd d d2 h]
    congr 1
    cases hc : (c.isDir && !excl.contains n) with
    | false => rfl
    | true =>
      simp only [Bool.not_true, Bool.false_or]
      cases c with
      | file dt => rfl
      | dir cs' =>
        rw [dirsClear_mono excl (.dir cs') (dd ++ [n]) d d2
          (fun q hq => h q ((List.prefix_append dd [n]).trans hq))]

end


mutual

theorem run2_go (cfg : SyncCfg) (excl : List String) :
    ∀ (e : Entry) (sp Sparent D : List String) (d : DstFS) (cnt : Counters)
      (rel : List String),
    cfg.dry_run = false → cfg.force = false → sp = Sparent ++ rel →
    filesOk cfg excl e (D ++ rel) d = true →
    syncGo cfg excl e sp Sparent D d cnt =
      .ok (d, ⟨cnt.copied, cnt.skipped + countFiles excl e⟩)
  | .file dt, sp, Sparent, D, d, cnt, rel, hdry, hforce, hsp, hok => by
    rw [syncGo, countFiles]
    simp
  | .dir cs, sp, Sparent, D, d, cnt, rel, hdry, hforce, hsp, hok => by
    have hrel : relative_to Sparent sp = some rel := (relative_to_eq _ _ _).mpr hsp
    obtain ⟨hdir, hch⟩ := filesOk_elim_dir cfg excl cs (D ++ rel) d hok
    rw [syncGo]
    simp only [hrel, hdry, Bool.false_eq_true, if_false,
      mkdirPath_of_some d (D ++ rel) _ true hdir,
      syncFiles_run2 cfg cs (D ++ rel) d cnt hdry hforce hdir
        (filesOkChildren_file_elim cfg excl cs (D ++ rel) d hch),
      run2_dirs cfg excl cs sp Sparent D d
        ⟨cnt.copied, cnt.skipped + (fileChildren cs).length⟩ rel
        hdry hforce hsp hch]
    rw [countFiles]
    simp only [Except.ok.injEq, Prod.mk.injEq, Counters.mk.injEq, true_and]
    omega

theorem run2_dirs (cfg : SyncCfg) (excl : List String) :
    ∀ (cs : List (String × Entry)) (sp Sparent D : List String) (d : DstFS)
      (cnt : Counters) (rel : List String),
    cfg.dry_run = false → cfg.force = false → sp = Sparent ++ rel →
    filesOkChildren cfg excl cs (D ++ rel) d = true →
    syncDirs cfg excl cs sp Sparent D d cnt =
      .ok (d, ⟨cnt.copied, cnt.skipped + countFilesChildren excl cs⟩)
  | [], sp, Sparent, D, d, cnt, rel, hdry, hforce, hsp, hok => by
    rw [syncDirs, countFilesChildren]
    simp
  | (n, c) :: rest, sp, Sparent, D, d, cnt, rel, hdry, hforce, hsp, hok => by
    rw [syncDirs]
    cases c with
    | file dt =>
      rw [filesOkChildren, Bool.and_eq_true] at hok
      simp only [Entry.isDir, Bool.false_and, Bool.false_eq_true, if_false,
        run2_dirs cfg excl rest sp Sparent D d cnt rel hdry hforce hsp hok.2]
      rw [countFilesChildren]
      simp [Entry.isDir]
    | dir cs' =>
      rw [filesOkChildren, Bool.and_eq_true] at hok
      cases hex : excl.contains n with
      | true =>
        simp only [Entry.isDir, hex, Bool.not_true, Bool.and_false,
          Bool.false_eq_true, if_false,
          run2_dirs cfg excl rest sp Sparent D d cnt rel hdry hforce hsp hok.2]
        rw [countFilesChildren]
        simp [Entry.isDir, hex]
        exact fun hmem => absurd (by simpa using hex) hmem
      | false =>
        have hokc : filesOk cfg excl (.dir cs') (D ++ (rel ++ [n])) d = true := by
          rw [← List.append_assoc]
          have h1 := hok.1
          rw [Bool.or_eq_true, hex] at h1
          rcases h1 with hc | hc
          · exact absurd hc (by simp)
          · exact hc
        simp only [Entry.isDir, hex, Bool.not_false, Bool.and_true, Bool.true_and,
          if_true,
          run2_go cfg excl (.dir cs') (sp ++ [n]) Sparent D d cnt (rel ++ [n])
            hdry hforce (by rw [hsp, List.append_assoc]) hokc,
          run2_dirs cfg excl rest sp Sparent D d
            ⟨cnt.copied, cnt.skipped + countFiles excl (.dir cs')⟩ rel
            hdry hforce hsp hok.2]
        rw [countFilesChildren]
        simp only [Entry.isDir, hex, Bool.not_false, Bool.and_true, if_true,
          Except.ok.injEq, Prod.mk.injEq, Counters.mk.injEq, true_and]
        omega

end


mutual

theorem run1_go (cfg : SyncCfg) (excl : List String) :
    ∀ (e : Entry) (sp Sparent D : List String) (d : DstFS) (cnt : Counters)
      (d1 : DstFS) (cnt1 : Counters) (rel : List String),
    cfg.dry_run = false → cfg.force = false → sp = Sparent ++ rel →
    nodupNames e = true →
    dirsClear excl e (D ++ rel) d = true →
    syncGo cfg excl e sp Sparent D d cnt = .ok (d1, cnt1) →
    (∀ q, ¬ (D ++ rel) <+: q → nodeAt d1 q = nodeAt d q) ∧
      filesOk cfg excl e (D ++ rel) d1 = true
  | .file dt, sp, Sparent, D, d, cnt, d1, cnt1, rel, hdry, hforce, hsp, hnd,
      hdc, h1 => by
    rw [syncGo] at h1
    simp only [Except.ok.injEq, Prod.mk.injEq] at h1
    obtain ⟨hd1, -⟩ := h1
    subst hd1
    exact ⟨fun q _ => rfl, rfl⟩
  | .dir cs, sp, Sparent, D, d, cnt, d1, cnt1, rel, hdry, hforce, hsp, hnd,
      hdc, h1 => by
    have hrel : relative_to Sparent sp = some rel := (relative_to_eq _ _ _).mpr hsp
    obtain ⟨hnodup, hndch⟩ := nodupNames_elim (.dir cs) cs hnd
    obtain ⟨hnf, hdcch⟩ := dirsClear_elim_dir excl cs (D ++ rel) d hdc
    rw [syncGo] at h1
    simp only [hrel, hdry, Bool.false_eq_true, if_false] at h1
    cases hmk : mkdirPath d (D ++ rel) true true with
    | error e0 => simp only [hmk] at h1; exact absurd h1 (by simp)
    | ok da =>
      simp only [hmk] at h1
      have hdira : nodeAt da (D ++ rel) = some .dirnode :=
        mkdirPath_self d (D ++ rel) true da hmk hnf
      have hframe_mk : ∀ q, q ≠ D ++ rel → nodeAt da q = nodeAt d q :=
        mkdirPath_frame d (D ++ rel) true da hmk
      cases hsf : syncFiles cfg cs (D ++ rel) da cnt with
      | error e0 => simp only [hsf] at h1; exact absurd h1 (by simp)
      | ok pr =>
        obtain ⟨d2, cnt2⟩ := pr
        simp only [hsf] at h1
        obtain ⟨hframe_f, hupf, hdir2⟩ :=
          syncFiles_run1 cfg cs (D ++ rel) da cnt d2 cnt2 hdry hforce hdira
            hnodup hsf
        have hdc2 : ∀ n cs', (n, Entry.dir cs') ∈ cs → excl.contains n = false →
            dirsClear excl (.dir cs') ((D ++ rel) ++ [n]) d2 = true := by
          intro n cs' hm hex
          have h0 := dirsClearChildren_elim excl cs (D ++ rel) d hdcch n cs' hm hex
          have hmono : ∀ q, (D ++ rel) ++ [n] <+: q → nodeAt d2 q = nodeAt d q := by
            intro q hq
            have hq1 : q ≠ D ++ rel := by
              intro he
              subst he
              exact snoc_not_prefix_self (D ++ rel) n hq
            have hq2 : ∀ m dt, (m, Entry.file dt) ∈ cs → q ≠ (D ++ rel) ++ [m] := by
              intro m dt hmf he
              subst he
              have hnm : n = m := snoc_prefix_snoc (D ++ rel) n m hq
              subst hnm
              exact Entry.noConfusion
                (nodup_keys_eq cs n (Entry.dir cs') (Entry.file dt) hnodup hm hmf)
            rw [hframe_f q hq2, hframe_mk q hq1]
          rw [dirsClear_mono excl (.dir cs') ((D ++ rel) ++ [n]) d d2 hmono]
          exact h0
        obtain ⟨hframe_d, hokd⟩ :=
          run1_dirs cfg excl cs sp Sparent D d2 cnt2 d1 cnt1 rel hdry hforce hsp
            hndch hnodup hdc2 h1
        constructor
        · intro q hq
          have hqm : q ≠ D ++ rel := by
            intro he
            exact hq (by rw [he])
          have hqf : ∀ m dt, (m, Entry.file dt) ∈ cs → q ≠ (D ++ rel) ++ [m] := by
            intro m dt hmf he
            subst he
            exact hq (List.prefix_append _ _)
          have hqd : ∀ m c, (m, c) ∈ cs → c.isDir = true → excl.contains m = false →
              ¬ (D ++ rel) ++ [m] <+: q :=
            fun m c _ _ _ hp => hq ((List.prefix_append (D ++ rel) [m]).trans hp)
          rw [hframe_d q hqd, hframe_f q hqf, hframe_mk q hqm]
        · refine filesOk_intro_dir cfg excl cs (D ++ rel) d1 ?_ ?_
          · have heq : nodeAt d1 (D ++ rel) = nodeAt d2 (D ++ rel) := by
              apply hframe_d
              intro m c _ _ _
              exact snoc_not_prefix_self (D ++ rel) m
            rw [heq, hdir2]
          · refine filesOkChildren_intro cfg excl cs (D ++ rel) d1 ?_ ?_
            · intro m dt hmf
              have heq : nodeAt d1 ((D ++ rel) ++ [m]) =
                  nodeAt d2 ((D ++ rel) ++ [m]) := by
                apply hframe_d
                intro m' c' hm' hcdir hex hp
                have hmm : m' = m := snoc_prefix_snoc (D ++ rel) m' m hp
                subst hmm
                cases c' with
                | file fd => rw [Entry.isDir] at hcdir; exact Bool.noConfusion hcdir
                | dir cs'' =>
                  exact Entry.noConfusion
                    (nodup_keys_eq cs m' (Entry.dir cs'') (Entry.file dt) hnodup
                      hm' hmf)
              rw [upToDate_congr cfg dt d2 d1 ((D ++ rel) ++ [m]) heq]
              exact hupf m dt hmf
            · exact hokd

theorem run1_dirs (cfg : SyncCfg) (excl : List String) :
    ∀ (cs : List (String × Entry)) (sp Sparent D : List String) (d : DstFS)
      (cnt : Counters) (d1 : DstFS) (cnt1 : Counters) (rel : List String),
    cfg.dry_run = false → cfg.force = false → sp = Sparent ++ rel →
    nodupNamesChildren cs = true →
    (cs.map Prod.fst).Nodup →
    (∀ n cs', (n, Entry.dir cs') ∈ cs → excl.contains n = false →
      dirsClear excl (.dir cs') ((D ++ rel) ++ [n]) d = true) →
    syncDirs cfg excl cs sp Sparent D d cnt = .ok (d1, cnt1) →
    (∀ q, (∀ n c, (n, c) ∈ cs → c.isDir = true → excl.contains n = false →
        ¬ (D ++ rel) ++ [n] <+: q) → nodeAt d1 q = nodeAt d q) ∧
      (∀ n cs', (n, Entry.dir cs') ∈ cs → excl.contains n = false →
        filesOk cfg excl (.dir cs') ((D ++ rel) ++ [n]) d1 = true)
  | [], sp, Sparent, D, d, cnt, d1, cnt1, rel, hdry, hforce, hsp, hndch,
      hnodup, hdc, h1 => by
    rw [syncDirs] at h1
    simp only [Except.ok.injEq, Prod.mk.injEq] at h1
    obtain ⟨hd1, -⟩ := h1
    subst hd1
    refine ⟨fun q _ => rfl, ?_⟩
    intro n cs' hm
    simp at hm
  | (n, c) :: rest, sp, Sparent, D, d, cnt, d1, cnt1, rel, hdry, hforce, hsp,
      hndch, hnodup, hdc, h1 => by
    rw [nodupNamesChildren, Bool.and_eq_true] at hndch
    simp only [List.map_cons, List.nodup_cons] at hnodup
    rw [syncDirs] at h1
    cases c with
    | file dt =>
      simp only [Entry.isDir, Bool.false_and, Bool.false_eq_true, if_false] at h1
      obtain ⟨hf, hd⟩ :=
        run1_dirs cfg excl rest sp Sparent D d cnt d1 cnt1 rel hdry hforce hsp
          hndch.2 hnodup.2
          (fun m cs' hm hex => hdc m cs' (List.mem_cons_of_mem _ hm) hex) h1
      refine ⟨fun q hq => hf q
        (fun m c' hm' => hq m c' (List.mem_cons_of_mem _ hm')), ?_⟩
      intro m cs' hm hex
      rcases List.mem_cons.mp hm with he | he
      · injection he with he1 he2
        exact Entry.noConfusion he2
      · exact hd m cs' he hex
    | dir cs'' =>
      cases hex : excl.contains n with
      | true =>
        simp only [Entry.isDir, hex, Bool.not_true, Bool.and_false,
          Bool.false_eq_true, if_false] at h1
        obtain ⟨hf, hd⟩ :=
          run1_dirs cfg excl rest sp Sparent D d cnt d1 cnt1 rel hdry hforce hsp
            hndch.2 hnodup.2
            (fun m cs' hm hex' => hdc m cs' (List.mem_cons_of_mem _ hm) hex') h1
        refine ⟨fun q hq => hf q
          (fun m c' hm' => hq m c' (List.mem_cons_of_mem _ hm')), ?_⟩
        intro m cs' hm hex'
        rcases List.mem_cons.mp hm with he | he
        · injection he with he1 he2
          subst he1
          rw [hex] at hex'
          exact Bool.noConfusion hex'
        · exact hd m cs' he hex'
      | false =>
        simp only [Entry.isDir, hex, Bool.not_false, Bool.and_true, Bool.true_and,
          if_true] at h1
        cases hgo : syncGo cfg excl (.dir cs'') (sp ++ [n]) Sparent D d cnt with
        | error e0 => simp only [hgo] at h1; exact absurd h1 (by simp)
        | ok pr =>
          obtain ⟨da, cnta⟩ := pr
          simp only [hgo] at h1
          have hsp' : sp ++ [n] = Sparent ++ (rel ++ [n]) := by
            rw [hsp, List.append_assoc]
          have hdc_head : dirsClear excl (.dir cs'') (D ++ (rel ++ [n])) d = true := by
            rw [← List.append_assoc]
            exact hdc n cs'' (List.mem_cons_self _ _) hex
          obtain ⟨hframe_c, hok_c⟩ :=
            run1_go cfg excl (.dir cs'') (sp ++ [n]) Sparent D d cnt da cnta
              (rel ++ [n]) hdry hforce hsp' hndch.1 hdc_head hgo
          have hframe_c' : ∀ q, ¬ (D ++ rel) ++ [n] <+: q →
              nodeAt da q = nodeAt d q := by
            intro q hq
            apply hframe_c
            rw [← List.append_assoc]
            exact hq
          have hdc_rest : ∀ m cs', (m, Entry.dir cs') ∈ rest →
              excl.contains m = false →
              dirsClear excl (.dir cs') ((D ++ rel) ++ [m]) da = true := by
            intro m cs' hm hex'
            have h0 := hdc m cs' (List.mem_cons_of_mem _ hm) hex'
            have hmono : ∀ q, (D ++ rel) ++ [m] <+: q →
                nodeAt da q = nodeAt d q := by
              intro q hq
              apply hframe_c'
              intro hp
              have hnm : n = m := prefix_snoc_unique (D ++ rel) n m q hp hq
              subst hnm
              exact hnodup.1 (by simpa using List.mem_map_of_mem Prod.fst hm)
            rw [dirsClear_mono excl (.dir cs') ((D ++ rel) ++ [m]) d da hmono]
            exact h0
          obtain ⟨hframe_r, hok_r⟩ :=
            run1_dirs cfg excl rest sp Sparent D da cnta d1 cnt1 rel hdry hforce
              hsp hndch.2 hnodup.2 hdc_rest h1
          constructor
          · intro q hq
            rw [hframe_r q
              (fun m c' hm' hdir' hex' => hq m c' (List.mem_cons_of_mem _ hm')
                hdir' hex')]
            exact hframe_c' q
              (hq n (.dir cs'') (List.mem_cons_self _ _) rfl hex)
          · intro m cs' hm hex'
            rcases List.mem_cons.mp hm with he | he
            · injection he with he1 he2
              injection he2 with he3
              subst he1
              subst he3
              have heq : ∀ q, (D ++ rel) ++ [m] <+: q →
                  nodeAt d1 q = nodeAt da q := by
                intro q hq
                apply hframe_r
                intro m' c' hm' hdir' hex'' hp
                have hmm : m' = m := prefix_snoc_unique (D ++ rel) m' m q hp hq
                subst hmm
                exact hnodup.1 (by simpa using List.mem_map_of_mem Prod.fst hm')
              rw [filesOk_mono cfg excl (.dir cs') ((D ++ rel) ++ [m]) da d1 heq]
              rw [List.append_assoc]
              exact hok_c
            · exact hok_r m cs' he hex'

end

/-- C6 (amended): `sync_directory` is idempotent when no pre-existing
destination regular file occupies a path that the source tree maps a
directory onto (`dirsClear`) and each source directory lists pairwise
distinct names (`nodupNames`): after a successful non-dry, non-forced run,
an immediately repeated run on the unchanged source returns the same
destination filesystem, copies zero files and skips every non-excluded
file of the tree. -/
theorem sync_directory_idempotent (cfg : SyncCfg) (excl : List String)
    (e : Entry) (S : List String) (d0 : DstFS) (D : List String)
    (d1 : DstFS) (c1 : Counters)
    (hdry : cfg.dry_run = false) (hforce : cfg.force = false)
    (hnd : nodupNames e = true)
    (hdc : dirsClear excl e (D ++ S.drop S.dropLast.length) d0 = true)
    (h1 : sync_directory cfg excl e S d0 D = .ok (d1, c1)) :
    sync_directory cfg excl e S d1 D = .ok (d1, ⟨0, countFiles excl e⟩) := by
  have hsp : S = S.dropLast ++ S.drop S.dropLast.length := by
    conv_lhs => rw [← List.take_append_drop S.dropLast.length S]
    congr 1
    rw [List.length_dropLast, ← List.dropLast_eq_take]
  by_cases hd0 : nodeAt d0 D = some Node.dirnode
  case neg =>
    rw [sync_directory] at h1
    simp only [hdry, Bool.not_false, if_true, ne_eq, hd0, not_false_iff,
      if_true] at h1
    exact absurd h1 (by simp)
  case pos =>
    rw [sync_directory] at h1
    simp only [hdry, Bool.not_false, if_true, ne_eq, hd0, not_true,
      if_false] at h1
    cases e with
    | file dt =>
      simp only [Entry.isDir, Bool.not_false, if_true] at h1
      exact absurd h1 (by simp)
    | dir cs =>
      simp only [Entry.isDir, Bool.not_true, Bool.false_eq_true, if_false,
        Option.some_ne_none, if_false] at h1
      obtain ⟨hframe, hok⟩ :=
        run1_go cfg excl (.dir cs) S S.dropLast D d0 ⟨0, 0⟩ d1 c1
          (S.drop S.dropLast.length) hdry hforce hsp hnd hdc h1
      have hd1 : nodeAt d1 D = some Node.dirnode := by
        by_cases hrel0 : S.drop S.dropLast.length = []
        · have hdd :=
            (filesOk_elim_dir cfg excl cs (D ++ S.drop S.dropLast.length)
              d1 hok).1
          rwa [hrel0, List.append_nil] at hdd
        · have hnp : ¬ (D ++ S.drop S.dropLast.length) <+: D := by
            intro hp
            have hle := hp.length_le
            rw [List.length_append] at hle
            have hpos : 0 < (S.drop S.dropLast.length).length :=
              List.length_pos.mpr hrel0
            omega
          rw [hframe D hnp]
          exact hd0
      have h2 := run2_go cfg excl (.dir cs) S S.dropLast D d1 ⟨0, 0⟩
        (S.drop S.dropLast.length) hdry hforce hsp hok
      rw [sync_directory]
      simp only [hdry, Bool.not_false, if_true, ne_eq, hd1,
        not_true, if_false, Option.some_ne_none, Entry.isDir,
        Bool.not_true, Bool.false_eq_true]
      rw [h2]
      simp

/-- Witness: the spec example, two files `a.txt` and `sub/b.txt` synced
into a fresh `/dst`; the first run copies 2 and the second run returns the
same filesystem with 0 copied and 2 skipped. -/
theorem sync_directory_idempotent_witness :
    sync_directory cfgW [] srcW ["src"] d0W ["dst"] = .ok (d1W, ⟨2, 0⟩) ∧
      sync_directory cfgW [] srcW ["src"] d1W ["dst"] =
        .ok (d1W, ⟨0, countFiles [] srcW⟩) ∧
      countFiles [] srcW = 2 := by
  have h1 : sync_directory cfgW [] srcW ["src"] d0W ["dst"] =
      .ok (d1W, ⟨2, 0⟩) := by rfl
  refine ⟨h1, ?_, by rfl⟩
  exact sync_directory_idempotent cfgW [] srcW ["src"] d0W ["dst"] d1W ⟨2, 0⟩
    rfl rfl (by decide) (by decide) h1

/-- Counterexample to the unamended claim: a pre-existing regular file at
`/dst/src` makes the remote `mkdir` target a non-directory, `sync_file`
then refuses to retarget into it, and the second run again reports two
copies instead of zero. -/
theorem sync_directory_second_run_copies_counterexample :
    sync_directory cfgW [] srcC ["src"] d0C ["dst"] = .ok (d1C, ⟨2, 0⟩) ∧
      sync_directory cfgW [] srcC ["src"] d1C ["dst"] = .ok (d2C, ⟨2, 0⟩) :=
  ⟨rfl, rfl⟩

end There
